import Mathlib

/-!
Verification development for a small native numeric library: a text
formatting/parsing utility (String.c) and a Gauss-Jordan row-reduction module
(row_reduction.c) over dense row-major matrices of doubles.

Shallow embedding conventions:
* C `double` values are modeled as `ℚ` (the claims under study concern control
  flow, exact comparisons with 0, counting and metadata updates, none of which
  depend on rounding; concrete witnesses use values on which double arithmetic
  is exact).
* C `int`/`int64_t` values are modeled as `ℤ`.
* A matrix buffer (`double *`) is a total map `ℤ → ℚ`; a text buffer
  (`char *`) is a total map `ℤ → Char`. Out-of-range cells are simply never
  read by the modeled code paths.
* C `for`/`while` loops become structural recursion on a `ℕ` fuel equal to the
  trip count (computed from the same bounds the C code uses), with the loop
  index threaded explicitly.
* Each `printf`/text-sink emission of the reduction module becomes one
  `LogEntry` appended to a log list.
-/

/-! ## String.c: the text sink -/

/-- Model of `struct String` from String.c. `bytes = none` models a NULL
destination pointer, i.e. count-only mode. -/
structure CString where
  length : ℤ
  capacity : ℤ
  attemptedToWriteMoreThanCapacity : Bool
  bytes : Option (ℤ → Char)

/-- Model of the `String(bytes, capacity)` constructor. -/
def mkCString (bytes : Option (ℤ → Char)) (capacity : ℤ) : CString :=
  { length := 0, attemptedToWriteMoreThanCapacity := false,
    capacity := capacity, bytes := bytes }

/-- One store `s->bytes[s->length] = c; s->length++;` guarded by the C code
by `s->bytes != NULL` for the store (the length bump is shared). -/
def putByte (c : Char) (s : CString) : CString :=
  { s with
    bytes := match s.bytes with
             | some b => some (fun k => if k = s.length then c else b k)
             | none => none,
    length := s.length + 1 }

/-- Model of `writeChar` (String.c lines 47-62). -/
def writeChar (value : Char) (s : CString) : CString :=
  if s.length < s.capacity then putByte value s
  else { s with attemptedToWriteMoreThanCapacity := true }

/-- The write-mode loop of `writeSpaces`: writes while below capacity, and on
hitting the wall with spaces remaining sets the overflow flag. -/
def writeSpacesLoopW : ℕ → CString → CString
  | 0, s => s
  | n + 1, s =>
    if s.length < s.capacity then writeSpacesLoopW n (putByte ' ' s)
    else { s with attemptedToWriteMoreThanCapacity := true }

/-- Model of `writeSpaces` (String.c lines 64-95). -/
def writeSpaces (numSpaces : ℤ) (s : CString) : CString :=
  match s.bytes with
  | some _ => writeSpacesLoopW numSpaces.toNat s
  | none =>
    let finalLength := s.length + numSpaces
    if finalLength ≤ s.capacity then { s with length := finalLength }
    else { s with length := s.capacity, attemptedToWriteMoreThanCapacity := true }

/-- The write-mode loop of `writeZeros`: the C source is a verbatim copy of
the `writeSpaces` loop storing the character `0` instead. -/
def writeZerosLoopW : ℕ → CString → CString
  | 0, s => s
  | n + 1, s =>
    if s.length < s.capacity then writeZerosLoopW n (putByte '0' s)
    else { s with attemptedToWriteMoreThanCapacity := true }

/-- Model of `writeZeros` (String.c lines 97-128). -/
def writeZeros (numZeros : ℤ) (s : CString) : CString :=
  match s.bytes with
  | some _ => writeZerosLoopW numZeros.toNat s
  | none =>
    let finalLength := s.length + numZeros
    if finalLength ≤ s.capacity then { s with length := finalLength }
    else { s with length := s.capacity, attemptedToWriteMoreThanCapacity := true }

/-- The write-mode loop of `writeNulTerminatedString`: a C string is modeled
as its list of (NUL-free) characters; the loop stops early, setting the
overflow flag, when the capacity is reached with characters remaining. -/
def writeNulTerminatedStringLoopW : List Char → CString → CString
  | [], s => s
  | c :: rest, s =>
    if s.length < s.capacity then writeNulTerminatedStringLoopW rest (putByte c s)
    else { s with attemptedToWriteMoreThanCapacity := true }

/-- Model of `writeNulTerminatedString` (String.c lines 130-168): write mode
copies char by char; count-only mode adds the whole length at once, clamping
to `capacity` and setting the flag on overflow. -/
def writeNulTerminatedString (value : List Char) (s : CString) : CString :=
  match s.bytes with
  | some _ => writeNulTerminatedStringLoopW value s
  | none =>
    let finalLength := s.length + (value.length : ℤ)
    if finalLength ≤ s.capacity then { s with length := finalLength }
    else { s with length := s.capacity, attemptedToWriteMoreThanCapacity := true }

/-- The write-mode loop of `writeStringNoNullTerminator`: the C source is a
verbatim copy of the `writeNulTerminatedString` loop (its extra conjunct
repeats the same test). -/
def writeStringNoNullTerminatorLoopW : List Char → CString → CString
  | [], s => s
  | c :: rest, s =>
    if s.length < s.capacity then writeStringNoNullTerminatorLoopW rest (putByte c s)
    else { s with attemptedToWriteMoreThanCapacity := true }

/-- Model of `writeStringNoNullTerminator` (String.c lines 170-208). -/
def writeStringNoNullTerminator (value : List Char) (s : CString) : CString :=
  match s.bytes with
  | some _ => writeStringNoNullTerminatorLoopW value s
  | none =>
    let finalLength := s.length + (value.length : ℤ)
    if finalLength ≤ s.capacity then { s with length := finalLength }
    else { s with length := s.capacity, attemptedToWriteMoreThanCapacity := true }

/-- Model of `writeNulTerminatedStringRightJustify` (String.c lines 210-246):
the space count is computed up front from `endLength`, the current length and
the string length; write mode delegates to `writeSpaces` and then
`writeNulTerminatedString`, count-only mode adds everything at once. -/
def writeNulTerminatedStringRightJustify (value : List Char) (endLength : ℤ)
    (s : CString) : CString :=
  let valueLength : ℤ := value.length
  let minimumLength := endLength - s.length
  let numSpaces := if valueLength < minimumLength then minimumLength - valueLength else 0
  match s.bytes with
  | some _ => writeNulTerminatedString value (writeSpaces numSpaces s)
  | none =>
    let finalLength := s.length + numSpaces + valueLength
    if finalLength ≤ s.capacity then { s with length := finalLength }
    else { s with length := s.capacity, attemptedToWriteMoreThanCapacity := true }

/-- Read a byte of the destination buffer (blank when there is none). -/
def bufAt (s : CString) (i : ℤ) : Char :=
  match s.bytes with
  | some b => b i
  | none => ' '

/-! ### writeDecimalNumber and its right-justified form -/

/-- The `ten = ten * 10` loop that sets the decimal-point threshold in
`writeDecimalNumber` (String.c lines 342-346). -/
def tenPow : ℕ → ℤ → ℤ
  | 0, t => t
  | n + 1, t => tenPow n (t * 10)

/-- The magnitude descent of `writeDecimalNumber` (String.c lines 349-363):
walks `magnitude` down from 10^18 by factors of ten while `magnitude >= ten`,
emitting a digit once the highest magnitude was found. Returns the remaining
value, the final magnitude and the sink. The fuel 19 covers all 18 possible
iterations. -/
def wdnMagLoop (ten : ℤ) : ℕ → ℤ → Bool → ℤ → CString → ℤ × ℤ × CString
  | 0, mag, _, v, s => (v, mag, s)
  | n + 1, mag, found, v, s =>
    if ten ≤ mag then
      let found2 := found || decide (mag ≤ v)
      if found2 then
        let digit := v / mag
        wdnMagLoop ten n (mag / 10) found2 (v - digit * mag)
          (writeChar (Char.ofNat (48 + digit.toNat)) s)
      else wdnMagLoop ten n (mag / 10) found2 v s
    else (v, mag, s)

/-- The post-decimal-point digit loop of `writeDecimalNumber` (String.c lines
379-384): emits a digit for every remaining magnitude down to 1. -/
def wdnFracLoop : ℕ → ℤ → ℤ → CString → CString
  | 0, _, _, s => s
  | n + 1, mag, v, s =>
    if 1 ≤ mag then
      let digit := v / mag
      wdnFracLoop n (mag / 10) (v - digit * mag)
        (writeChar (Char.ofNat (48 + digit.toNat)) s)
    else s

/-- Model of `writeDecimalNumber` (String.c lines 326-388). All divisions here
act on non-negative values, where ℤ division agrees with C division. -/
def writeDecimalNumber (value : ℤ) (numDecimalPlacesToWrite : ℤ) (s : CString) : CString :=
  let v0 := if value < 0 then (if value = -(2 ^ 63) then 2 ^ 63 - 1 else -value) else value
  let s0 := if value < 0 then writeChar '-' s else s
  let ten := tenPow numDecimalPlacesToWrite.toNat 10
  let m := wdnMagLoop ten 19 1000000000000000000 false v0 s0
  let digit := m.1 / m.2.1
  let s2 := writeChar (Char.ofNat (48 + digit.toNat)) m.2.2
  let v2 := m.1 - digit * m.2.1
  let mag2 := m.2.1 / 10
  if 0 < numDecimalPlacesToWrite then wdnFracLoop 19 mag2 v2 (writeChar '.' s2)
  else s2

/-- Model of `writeDecimalNumberRightJustify` (String.c lines 390-408),
including its `else` branch, which writes the number a second time without
rewinding when no padding is needed. -/
def writeDecimalNumberRightJustify (value numDecimalPlacesToWrite endLength : ℤ)
    (s : CString) : CString :=
  let initialLength := s.length
  let s1 := writeDecimalNumber value numDecimalPlacesToWrite s
  let numSpaces := endLength - s1.length
  if 0 < numSpaces then
    writeDecimalNumber value numDecimalPlacesToWrite
      (writeSpaces numSpaces { s1 with length := initialLength })
  else
    writeDecimalNumber value numDecimalPlacesToWrite s1

/-- Model of `writeNumber` (String.c lines 248-292): the sign handling, the
magnitude descent (the very loop of `writeDecimalNumber`, which the C source
duplicates verbatim, with `ten = 10`) and the always-written ones place. -/
def writeNumber (value : ℤ) (s : CString) : CString :=
  let v0 := if value < 0 then (if value = -(2 ^ 63) then 2 ^ 63 - 1 else -value) else value
  let s0 := if value < 0 then writeChar '-' s else s
  let m := wdnMagLoop 10 19 1000000000000000000 false v0 s0
  let digit := m.1 / m.2.1
  writeChar (Char.ofNat (48 + digit.toNat)) m.2.2

/-- Model of `writeNumberRightJustify` (String.c lines 294-308): measure by
writing, then if padding is needed rewind, pad with spaces and write again. -/
def writeNumberRightJustify (value endLength : ℤ) (s : CString) : CString :=
  let initialLength := s.length
  let s1 := writeNumber value s
  let numSpaces := endLength - s1.length
  if 0 < numSpaces then
    writeNumber value (writeSpaces numSpaces { s1 with length := initialLength })
  else s1

/-- Model of `writeNumberZeroPadding` (String.c lines 310-324): like the
right-justified form but padding with zero characters. -/
def writeNumberZeroPadding (value endLength : ℤ) (s : CString) : CString :=
  let initialLength := s.length
  let s1 := writeNumber value s
  let numZeros := endLength - s1.length
  if 0 < numZeros then
    writeNumber value (writeZeros numZeros { s1 with length := initialLength })
  else s1

/-! ### The text-sink write operations as one type -/

/-- A text-sink write operation: one constructor per `write*` function of
String.c, for comparing write mode against count-only mode over a whole
sequence of operations. -/
inductive SinkOp where
  | wChar (c : Char)
  | wSpaces (n : ℤ)
  | wZeros (n : ℤ)
  | wNulStr (cs : List Char)
  | wStrNoNul (cs : List Char)
  | wNulStrRJ (cs : List Char) (endLength : ℤ)
  | wNumber (value : ℤ)
  | wNumberRJ (value endLength : ℤ)
  | wNumberZP (value endLength : ℤ)
  | wDecimal (value numDec : ℤ)
  | wDecimalRJ (value numDec endLength : ℤ)

/-- Run one sink operation. -/
def runSinkOp (op : SinkOp) (s : CString) : CString :=
  match op with
  | .wChar c => writeChar c s
  | .wSpaces n => writeSpaces n s
  | .wZeros n => writeZeros n s
  | .wNulStr cs => writeNulTerminatedString cs s
  | .wStrNoNul cs => writeStringNoNullTerminator cs s
  | .wNulStrRJ cs endLength => writeNulTerminatedStringRightJustify cs endLength s
  | .wNumber value => writeNumber value s
  | .wNumberRJ value endLength => writeNumberRightJustify value endLength s
  | .wNumberZP value endLength => writeNumberZeroPadding value endLength s
  | .wDecimal value numDec => writeDecimalNumber value numDec s
  | .wDecimalRJ value numDec endLength =>
    writeDecimalNumberRightJustify value numDec endLength s

/-- Run a sequence of sink operations. -/
def runSinkOps (ops : List SinkOp) (s : CString) : CString :=
  ops.foldl (fun s op => runSinkOp op s) s

/-- Pure mirror of the magnitude descent: how many digit characters the loop
`wdnMagLoop` emits (its branch structure verbatim, the sink dropped). -/
def wdnMagCount (ten : ℤ) : ℕ → ℤ → Bool → ℤ → ℕ
  | 0, _, _, _ => 0
  | n + 1, mag, found, v =>
    if ten ≤ mag then
      let found2 := found || decide (mag ≤ v)
      if found2 then 1 + wdnMagCount ten n (mag / 10) found2 (v - v / mag * mag)
      else wdnMagCount ten n (mag / 10) found2 v
    else 0

/-- Pure mirror of the magnitude descent: the final (value, magnitude) pair. -/
def wdnMagVM (ten : ℤ) : ℕ → ℤ → Bool → ℤ → ℤ × ℤ
  | 0, mag, _, v => (v, mag)
  | n + 1, mag, found, v =>
    if ten ≤ mag then
      let found2 := found || decide (mag ≤ v)
      if found2 then wdnMagVM ten n (mag / 10) found2 (v - v / mag * mag)
      else wdnMagVM ten n (mag / 10) found2 v
    else (v, mag)

/-- Pure mirror of the post-decimal-point loop: it emits one digit per
magnitude from its start down to 1. -/
def wdnFracCount : ℕ → ℤ → ℕ
  | 0, _ => 0
  | n + 1, mag => if 1 ≤ mag then 1 + wdnFracCount n (mag / 10) else 0

/-- The number of characters `writeNumber value` emits, in any mode: an
optional sign, the leading digits, the always-written ones place. -/
def writeNumberWidth (value : ℤ) : ℤ :=
  let v0 := if value < 0 then (if value = -(2 ^ 63) then 2 ^ 63 - 1 else -value) else value
  (if value < 0 then 1 else 0) + (wdnMagCount 10 19 1000000000000000000 false v0 : ℤ) + 1

/-- The number of characters `writeDecimalNumber value numDec` emits, in any
mode: the integer part as in `writeNumber` and, when decimals were requested,
the point and the fractional digits. -/
def writeDecimalNumberWidth (value numDec : ℤ) : ℤ :=
  let v0 := if value < 0 then (if value = -(2 ^ 63) then 2 ^ 63 - 1 else -value) else value
  let ten := tenPow numDec.toNat 10
  (if value < 0 then 1 else 0) + (wdnMagCount ten 19 1000000000000000000 false v0 : ℤ) + 1
    + (if 0 < numDec then
        1 + (wdnFracCount 19 ((wdnMagVM ten 19 1000000000000000000 false v0).2 / 10) : ℤ)
      else 0)

/-- How many characters a sink operation asks to write when the sink length
is `len`: the "requested write" against which capacity is checked. For the
measure-then-rewind writers the request is the padding the operation aims for
plus the payload width (and for the buggy decimal right-justify, the
duplicated render in its else branch). -/
def sinkOpRequest (op : SinkOp) (len : ℤ) : ℤ :=
  match op with
  | .wChar _ => 1
  | .wSpaces n => n
  | .wZeros n => n
  | .wNulStr cs => cs.length
  | .wStrNoNul cs => cs.length
  | .wNulStrRJ cs endLength =>
    (if (cs.length : ℤ) < endLength - len then (endLength - len) - (cs.length : ℤ) else 0)
      + (cs.length : ℤ)
  | .wNumber value => writeNumberWidth value
  | .wNumberRJ value endLength =>
    if 0 < endLength - (len + writeNumberWidth value) then
      (endLength - (len + writeNumberWidth value)) + writeNumberWidth value
    else writeNumberWidth value
  | .wNumberZP value endLength =>
    if 0 < endLength - (len + writeNumberWidth value) then
      (endLength - (len + writeNumberWidth value)) + writeNumberWidth value
    else writeNumberWidth value
  | .wDecimal value numDec => writeDecimalNumberWidth value numDec
  | .wDecimalRJ value numDec endLength =>
    if 0 < endLength - (len + writeDecimalNumberWidth value numDec) then
      (endLength - (len + writeDecimalNumberWidth value numDec))
        + writeDecimalNumberWidth value numDec
    else writeDecimalNumberWidth value numDec + writeDecimalNumberWidth value numDec

/-- The one restriction under which the two modes agree: a `writeSpaces` or
`writeZeros` count must not be negative (write mode ignores a negative count
while count-only mode subtracts it from the length). -/
def sinkOpCountNonneg : SinkOp → Bool
  | .wSpaces n => decide (0 ≤ n)
  | .wZeros n => decide (0 ≤ n)
  | _ => true

/-- Whether some operation of the sequence requests more characters than the
remaining capacity at its point in the sequence, lengths evolving by request
and saturating at the capacity. -/
def anyOverflow (cap : ℤ) : List SinkOp → ℤ → Bool
  | [], _ => false
  | op :: rest, len =>
    decide (cap < len + sinkOpRequest op len)
      || anyOverflow cap rest (min (len + sinkOpRequest op len) cap)

/-- The sink length after a sequence of requests, saturating at capacity. -/
def predictedLength (cap : ℤ) : List SinkOp → ℤ → ℤ
  | [], len => len
  | op :: rest, len => predictedLength cap rest (min (len + sinkOpRequest op len) cap)

/-! ### readDouble -/

/-- The C test `c >= '0' && c <= '9'`. -/
def isDigitChar (c : Char) : Bool :=
  decide (48 ≤ c.toNat) && decide (c.toNat ≤ 57)

/-- The C expression `c - '0'` as a rational. -/
def digitValQ (c : Char) : ℚ :=
  ((c.toNat : ℤ) - 48 : ℤ)

/-- The leading-space skip shared by the readers (String.c lines 644-654):
returns the last character read (`0` if none was) and the offset. -/
def rdSkipSpaces (arr : ℤ → Char) (len : ℤ) : ℕ → ℤ → Char → Char × ℤ
  | 0, off, c => (c, off)
  | n + 1, off, c =>
    if off < len then
      let c2 := arr off
      if c2 = ' ' then rdSkipSpaces arr len n (off + 1) c2 else (c2, off)
    else (c, off)

/-- The integer-digit loop of `readDouble` (String.c lines 679-693): returns
(number, current char, offset, hit-end-of-input). -/
def rdIntDigits (arr : ℤ → Char) (len : ℤ) : ℕ → ℤ → Char → ℚ → ℚ × Char × ℤ × Bool
  | 0, off, c, num => (num, c, off, false)
  | n + 1, off, c, num =>
    if isDigitChar c then
      let num2 := 10 * num + digitValQ c
      let off2 := off + 1
      if off2 < len then rdIntDigits arr len n off2 (arr off2) num2
      else (num2, c, off2, true)
    else (num, c, off, false)

/-- The fractional-digit loop of `readDouble` (String.c lines 712-727):
returns (number, divisor, current char, offset, hit-end-of-input). -/
def rdFracDigits (arr : ℤ → Char) (len : ℤ) :
    ℕ → ℤ → Char → ℚ → ℚ → ℚ × ℚ × Char × ℤ × Bool
  | 0, off, c, num, divisor => (num, divisor, c, off, false)
  | n + 1, off, c, num, divisor =>
    if isDigitChar c then
      let num2 := 10 * num + digitValQ c
      let div2 := 10 * divisor
      let off2 := off + 1
      if off2 < len then rdFracDigits arr len n off2 (arr off2) num2 div2
      else (num2, div2, c, off2, true)
    else (num, divisor, c, off, false)

/-- The exponent-digit loop of `readDouble` (String.c lines 764-777), which in
the source sits entirely inside the `if (c == '-')` branch: returns
(exponent, offset). Hitting end of input `break`s with the digits read. -/
def rdExpDigits (arr : ℤ → Char) (len : ℤ) : ℕ → ℤ → Char → ℤ → ℤ × ℤ
  | 0, off, _, e => (e, off)
  | n + 1, off, c, e =>
    if isDigitChar c then
      let e2 := 10 * e + ((c.toNat : ℤ) - 48)
      let off2 := off + 1
      if off2 < len then rdExpDigits arr len n off2 (arr off2) e2
      else (e2, off2)
    else (e, off)

/-- The `while (exponent > 0) divisor = divisor * 10` loop (negative
exponent). -/
def divGrow : ℕ → ℚ → ℚ
  | 0, d => d
  | n + 1, d => divGrow n (d * 10)

/-- Exponent handling of `readDouble` once an `e` and the following character
were consumed (String.c lines 745-796). When the character is not `-`,
`exponent` stays 0 and its digits are never read: the positive-exponent
`divisor = divisor / 10` loop of the source runs zero times. -/
def readDoubleExpTail (arr : ℤ → Char) (len : ℤ) (sign number divisor : ℚ)
    (c : Char) (off : ℤ) : ℚ × ℤ :=
  if c = '-' then
    if off + 1 < len then
      let e := rdExpDigits arr len ((len - (off + 1)).toNat + 1) (off + 1) (arr (off + 1)) 0
      (sign * (number / divGrow e.1.toNat divisor), e.2)
    else (sign * (number / divisor), off + 1)
  else
    (sign * (number / divisor), off)

/-- The optional-exponent step of `readDouble` (String.c lines 730-744). -/
def readDoubleExp (arr : ℤ → Char) (len : ℤ) (sign number divisor : ℚ)
    (c : Char) (off : ℤ) : ℚ × ℤ :=
  if c = 'e' then
    if off + 1 < len then readDoubleExpTail arr len sign number divisor (arr (off + 1)) (off + 1)
    else (sign * (number / divisor), off + 1)
  else (sign * (number / divisor), off)

/-- The optional-fraction step of `readDouble` (String.c lines 695-728),
entered with the integer part read and `divisor = 1`. -/
def readDoubleFrac (arr : ℤ → Char) (len : ℤ) (sign number : ℚ)
    (c : Char) (off : ℤ) : ℚ × ℤ :=
  if c = '.' then
    if off + 1 < len then
      let f := rdFracDigits arr len ((len - (off + 1)).toNat + 1) (off + 1) (arr (off + 1)) number 1
      if f.2.2.2.2 then (sign * (f.1 / f.2.1), f.2.2.2.1)
      else readDoubleExp arr len sign f.1 f.2.1 f.2.2.1 f.2.2.2.1
    else (sign * (number / 1), off + 1)
  else readDoubleExp arr len sign number 1 c off

/-- The digits-onward part of `readDouble`, entered with the sign consumed. -/
def readDoubleBody (arr : ℤ → Char) (len : ℤ) (sign : ℚ) (c : Char) (off : ℤ)
    (valueToReturnOnError : ℚ) : ℚ × ℤ :=
  if ¬ isDigitChar c then (valueToReturnOnError, off)
  else
    let d := rdIntDigits arr len ((len - off).toNat + 1) off c 0
    if d.2.2.2 then (sign * d.1, d.2.2.1)
    else readDoubleFrac arr len sign d.1 d.2.1 d.2.2.1

/-- Model of `readDouble` (String.c lines 642-800): returns the parsed value
and the final offset. -/
def readDouble (arr : ℤ → Char) (offset0 len : ℤ) (valueToReturnOnError : ℚ) : ℚ × ℤ :=
  let sk := rdSkipSpaces arr len (len - offset0).toNat offset0 (Char.ofNat 0)
  if sk.1 = '-' then
    if sk.2 + 1 < len then
      readDoubleBody arr len (-1) (arr (sk.2 + 1)) (sk.2 + 1) valueToReturnOnError
    else (valueToReturnOnError, sk.2 + 1)
  else readDoubleBody arr len 1 sk.1 sk.2 valueToReturnOnError

/-- The character array "2e3". -/
def arrTwoEThree : ℤ → Char :=
  fun i => if i = 0 then '2' else if i = 1 then 'e' else if i = 2 then '3' else ' '

example : (readDouble arrTwoEThree 0 3 0).1 = 2 := by with_unfolding_all rfl
example : (readDouble arrTwoEThree 0 3 0).2 = 2 := by decide
example : (readDouble (fun i => if i = 0 then '4' else '2') 0 2 0).1 = 42 := by
  with_unfolding_all rfl
example :
    (readDouble (fun i => if i = 0 then '1' else if i = 1 then '.' else '5') 0 3 0).1
      = 3 / 2 := by with_unfolding_all rfl
example :
    (readDouble (fun i => if i = 0 then '2' else if i = 1 then 'e' else
      if i = 2 then '-' else '1') 0 4 0).1 = 1 / 5 := by with_unfolding_all rfl

/-! ## row_reduction.c: data model -/

/-- A dense row-major matrix buffer (`double *`): cell `(row, col)` of a
matrix with `nc` columns lives at index `row * nc + col`. -/
def Buf : Type := ℤ → ℚ

/-- A single element store into a buffer. -/
def writeCell (b : Buf) (i : ℤ) (v : ℚ) : Buf :=
  fun k => if k = i then v else b k

/-- Model of `struct MatrixMetadata` (row_reduction.c lines 32-40). -/
structure MatrixMetadata where
  num_rows : ℤ
  num_cols : ℤ
  augmented_matrix_rank : ℤ
  matrix_rank : ℤ
  is_consistent : ℤ
  matrix_determinant : ℚ
deriving DecidableEq

/-- `MARGIN_OF_ERROR = 1e-6` (row_reduction.c line 15). -/
def MARGIN_OF_ERROR : ℚ := 1 / 1000000

/-- Column scan of `row_has_all_zeros`: returns false at the first entry that
is nonzero and outside the margin of error. -/
def rowHasAllZerosAux (m : Buf) (nc row : ℤ) : ℕ → ℤ → Bool
  | 0, _ => true
  | n + 1, col =>
    let v := m (row * nc + col)
    if v ≠ 0 ∧ (v < -1 * MARGIN_OF_ERROR ∨ v > MARGIN_OF_ERROR) then false
    else rowHasAllZerosAux m nc row n (col + 1)

/-- Model of `row_has_all_zeros` (row_reduction.c lines 188-201). -/
def row_has_all_zeros (m : Buf) (row nc : ℤ) : Bool :=
  rowHasAllZerosAux m nc row nc.toNat 0

/-- Row scan of `column_has_all_zeros`. -/
def colHasAllZerosAux (m : Buf) (nc col : ℤ) : ℕ → ℤ → Bool
  | 0, _ => true
  | n + 1, row =>
    let v := m (row * nc + col)
    if v ≠ 0 ∧ (v < -1 * MARGIN_OF_ERROR ∨ v > MARGIN_OF_ERROR) then false
    else colHasAllZerosAux m nc col n (row + 1)

/-- Model of `column_has_all_zeros` (row_reduction.c lines 217-228). -/
def column_has_all_zeros (m : Buf) (col nr nc : ℤ) : Bool :=
  colHasAllZerosAux m nc col nr.toNat 0

/-- The counting loop of `calculate_matrix_row_rank`. -/
def rowRankAux (m : Buf) (nc : ℤ) : ℕ → ℤ → ℤ → ℤ
  | 0, _, acc => acc
  | n + 1, row, acc =>
    rowRankAux m nc n (row + 1) (if row_has_all_zeros m row nc then acc else acc + 1)

/-- Model of `calculate_matrix_row_rank` (row_reduction.c lines 239-250). -/
def calculate_matrix_row_rank (m : Buf) (metadata : MatrixMetadata) : ℤ :=
  rowRankAux m metadata.num_cols metadata.num_rows.toNat 0 0

/-- The counting loop of `calculate_matrix_column_rank`. -/
def colRankAux (m : Buf) (nr nc : ℤ) : ℕ → ℤ → ℤ → ℤ
  | 0, _, acc => acc
  | n + 1, col, acc =>
    colRankAux m nr nc n (col + 1) (if column_has_all_zeros m col nr nc then acc else acc + 1)

/-- Model of `calculate_matrix_column_rank` (row_reduction.c lines 261-272). -/
def calculate_matrix_column_rank (m : Buf) (metadata : MatrixMetadata) : ℤ :=
  colRankAux m metadata.num_rows metadata.num_cols metadata.num_cols.toNat 0 0

/-- One log entry: each `printf` / text-sink write of the reduction module
becomes one entry. `snapshot` stands for a full matrix printout
(`print_augmented_matrix`), `metaDump` for `print_matrix_metadata`. -/
inductive LogEntry where
  | swp (rowA rowB : ℤ)
  | newPivot (v : ℚ)
  | addOp (row i : ℤ) (scalar : ℚ)
  | subOp (row i : ℤ) (scalar : ℚ)
  | sclOp (i : ℤ) (scalar : ℚ)
  | recip (v : ℚ)
  | snapshot
  | metaDump
  | text (s : String)
deriving DecidableEq

/-- Model of `is_matrix_consistent_rouche_capelli` (row_reduction.c lines
288-356): returns the updated metadata of the checked matrix and the emitted
classification message. -/
def is_matrix_consistent_rouche_capelli (matrix_to_check augmented_matrix_to_check : Buf)
    (matrix_to_check_metadata augmented_matrix_to_check_metadata : MatrixMetadata) :
    MatrixMetadata × List LogEntry :=
  let matrix_row_rank := calculate_matrix_row_rank matrix_to_check matrix_to_check_metadata
  let augmented_matrix_row_rank :=
    calculate_matrix_row_rank augmented_matrix_to_check augmented_matrix_to_check_metadata
  if matrix_row_rank < augmented_matrix_row_rank then
    ({ matrix_to_check_metadata with is_consistent := 0 },
     [LogEntry.text "System of Equations is not Consistent. No solution exists.\n"])
  else if matrix_row_rank = augmented_matrix_row_rank then
    if matrix_row_rank < matrix_to_check_metadata.num_rows then
      ({ matrix_to_check_metadata with is_consistent := 1 },
       [LogEntry.text "System of Equations is Consistent. Infinite solutions exist.\n"])
    else if matrix_row_rank = matrix_to_check_metadata.num_rows then
      ({ matrix_to_check_metadata with is_consistent := 1 },
       [LogEntry.text "System of Equations is Consistent. Unique solution exists.\n"])
    else
      ({ matrix_to_check_metadata with is_consistent := 1 },
       [LogEntry.text
          "System of Equations is Consistent. Row Rank exceeds number of rows in matrix.\n"])
  else
    ({ matrix_to_check_metadata with is_consistent := 1 },
     [LogEntry.text "Somehow rank(A|b) > n. Don\x27t know what to do.\n"])

/-! ## hstack / vstack helpers -/

/-- `memcpy` of `n` doubles from `src + sOff` into `dst + dOff` (the source
and destination are distinct buffers wherever the module calls it). -/
def memcpyB (dst : Buf) (dOff : ℤ) (src : Buf) (sOff : ℤ) : ℕ → Buf
  | 0 => dst
  | n + 1 => writeCell (memcpyB dst dOff src sOff n) (dOff + n) (src (sOff + n))

/-- The row loop of `hstack`: for each row, copy that row of `matrix_one`
and then that row of `matrix_two` into the destination. -/
def hstackLoop (m1 m2 : Buf) (e0 e1 ctot : ℤ) : ℕ → Buf → Buf
  | 0, d => d
  | n + 1, d =>
    let d1 := hstackLoop m1 m2 e0 e1 ctot n d
    let d2 := memcpyB d1 ((n : ℤ) * ctot) m1 ((n : ℤ) * e0) e0.toNat
    memcpyB d2 ((n : ℤ) * ctot + e0) m2 ((n : ℤ) * e1) e1.toNat

/-- Result of `hstack`: the destination buffer and its written metadata. -/
structure HstackResult where
  dest : Buf
  destMeta : MatrixMetadata

/-- Model of `hstack` (row_reduction.c lines 121-142). -/
def hstack (matrix_one matrix_two result_matrix : Buf)
    (matrix_one_metadata matrix_two_metadata result_matrix_metadata : MatrixMetadata) :
    HstackResult :=
  let num_rows_total := matrix_one_metadata.num_rows
  let e0 := matrix_one_metadata.num_cols
  let e1 := matrix_two_metadata.num_cols
  let num_cols_total := e0 + e1
  if num_rows_total < 1 ∨ num_cols_total < 1 then
    { dest := result_matrix,
      destMeta := { result_matrix_metadata with num_cols := -1, num_rows := -1 } }
  else
    { dest := hstackLoop matrix_one matrix_two e0 e1 num_cols_total num_rows_total.toNat
        result_matrix,
      destMeta :=
        { result_matrix_metadata with num_rows := num_rows_total, num_cols := num_cols_total } }

/-! ## Elementary row operations -/

/-- Column loop of `multiply_row_by_scalar`. -/
def mulRowAux (row nc : ℤ) (scalar : ℚ) : ℕ → ℤ → Buf → Buf
  | 0, _, a => a
  | n + 1, col, a =>
    mulRowAux row nc scalar n (col + 1)
      (writeCell a (row * nc + col) (a (row * nc + col) * scalar))

/-- Model of `multiply_row_by_scalar` (row_reduction.c lines 508-514). -/
def multiply_row_by_scalar (a : Buf) (row nc : ℤ) (scalar : ℚ) : Buf :=
  mulRowAux row nc scalar nc.toNat 0 a

/-- Column loop of `subtract_scaled_row`; each column reads the current
buffer, exactly like the sequential C loop. -/
def subRowAux (rmod rsub nc : ℤ) (scalar : ℚ) : ℕ → ℤ → Buf → Buf
  | 0, _, a => a
  | n + 1, col, a =>
    subRowAux rmod rsub nc scalar n (col + 1)
      (writeCell a (rmod * nc + col) (a (rmod * nc + col) - scalar * a (rsub * nc + col)))

/-- Model of `subtract_scaled_row` (row_reduction.c lines 533-539). -/
def subtract_scaled_row (a : Buf) (row_index_to_modify row_to_use_for_subtraction nc : ℤ)
    (scalar : ℚ) : Buf :=
  subRowAux row_index_to_modify row_to_use_for_subtraction nc scalar nc.toNat 0 a

/-- Column loop of `add_scaled_row`. -/
def addRowAux (rmod radd nc : ℤ) (scalar : ℚ) : ℕ → ℤ → Buf → Buf
  | 0, _, a => a
  | n + 1, col, a =>
    addRowAux rmod radd nc scalar n (col + 1)
      (writeCell a (rmod * nc + col) (a (rmod * nc + col) + scalar * a (radd * nc + col)))

/-- Model of `add_scaled_row` (row_reduction.c lines 558-564). -/
def add_scaled_row (a : Buf) (row_index_to_modify row_to_use_for_addition nc : ℤ)
    (scalar : ℚ) : Buf :=
  addRowAux row_index_to_modify row_to_use_for_addition nc scalar nc.toNat 0 a

/-- Column loop of `swap_rows`. The C code copies whole rows through a
16-double stack temporary (so it assumes `num_cols <= 16`); elementwise
swapping yields the same buffer on every in-range call. -/
def swapRowsAux (ra rb nc : ℤ) : ℕ → ℤ → Buf → Buf
  | 0, _, a => a
  | n + 1, col, a =>
    let tmp := a (ra * nc + col)
    let a1 := writeCell a (ra * nc + col) (a (rb * nc + col))
    let a2 := writeCell a1 (rb * nc + col) tmp
    swapRowsAux ra rb nc n (col + 1) a2

/-- Model of `swap_rows` (row_reduction.c lines 581-588). -/
def swap_rows (a : Buf) (row_to_swap_index_a row_to_swap_index_b nc : ℤ) : Buf :=
  swapRowsAux row_to_swap_index_a row_to_swap_index_b nc nc.toNat 0 a


/-! ## The Gauss-Jordan reduction engine (row_reduction.c lines 607-844) -/

/-- The forward-phase loop state: the internal augmented matrix, the pending
row-swap flag `swap_rows_flag` (declared once, outside the diagonal loop, at
line 617), `swap_multiplier`, `product_of_diagonal_elements` and the log. -/
structure FwdSt where
  A : Buf
  flag : ℤ
  mult : ℤ
  prod : ℚ
  log : List LogEntry

/-- One iteration of the forward inner loop (row_reduction.c lines 640-725)
for diagonal index `i` and row `row`; the second component of the pair is the
local `pivot_element`, which a swap reloads. The C code tests
`value_below_pivot_element != 0` and does nothing otherwise; either way it
then prints the augmented matrix (line 724), here a `snapshot` entry. -/
def fwdRowStep (nc i row : ℤ) (sp : FwdSt × ℚ) : FwdSt × ℚ :=
  let s := sp.1
  let v := s.A (row * nc + i)
  let sp2 :=
    if v = 0 then sp
    else if s.flag = 1 then
      let a2 := swap_rows s.A row i nc
      let p2 := a2 (i * nc + i)
      ({ A := a2, flag := 0, mult := s.mult * (-1), prod := s.prod,
         log := s.log ++ [LogEntry.swp (row + 1) (i + 1), LogEntry.newPivot p2] }, p2)
    else if v < 0 then
      let sc := (-1 : ℚ) * (v / sp.2)
      ({ s with A := add_scaled_row s.A row i nc sc,
                log := s.log ++ [LogEntry.addOp row i sc] }, sp.2)
    else
      let sc := v / sp.2
      ({ s with A := subtract_scaled_row s.A row i nc sc,
                log := s.log ++ [LogEntry.subOp row i sc] }, sp.2)
  ({ sp2.1 with log := sp2.1.log ++ [LogEntry.snapshot] }, sp2.2)

/-- The forward inner loop over rows `i+1 .. num_rows-1`. -/
def fwdInner (nc i : ℤ) : ℕ → ℤ → FwdSt × ℚ → FwdSt × ℚ
  | 0, _, sp => sp
  | n + 1, row, sp => fwdInner nc i n (row + 1) (fwdRowStep nc i row sp)

/-- One iteration of the forward diagonal loop (row_reduction.c lines
631-727): read the pivot, raise the pending-swap flag if it is exactly zero
(the flag is never cleared here when the pivot is nonzero), run the inner
loop, and multiply the (possibly reloaded) pivot into the running product. -/
def fwdStep (nc nrows i : ℤ) (s : FwdSt) : FwdSt :=
  let piv := s.A (i * nc + i)
  let s1 := if piv = 0 then { s with flag := 1 } else s
  let sp := fwdInner nc i (nrows - (i + 1)).toNat (i + 1) (s1, piv)
  { sp.1 with prod := sp.1.prod * sp.2 }

/-- The forward diagonal loop over `i = 0 .. size_main_diagonal - 1`. -/
def fwdLoop (nc nrows : ℤ) : ℕ → ℤ → FwdSt → FwdSt
  | 0, _, s => s
  | n + 1, i, s => fwdLoop nc nrows n (i + 1) (fwdStep nc nrows i s)

/-- One iteration of the backward inner loop (row_reduction.c lines 769-803)
for diagonal index `i`, row `row` and the reloaded local `pivot_element`.
The C prints a reciprocal trace line and a `[SUB]` line (1-based indices)
before subtracting; it then always prints the matrix. -/
def bwdRowStep (nc i row : ℤ) (piv : ℚ) (st : Buf × List LogEntry) : Buf × List LogEntry :=
  let v := st.1 (row * nc + i)
  let st2 :=
    if v = 0 then st
    else
      let sc := v / piv
      (subtract_scaled_row st.1 row i nc sc,
       st.2 ++ [LogEntry.recip v, LogEntry.subOp (row + 1) (i + 1) sc])
  (st2.1, st2.2 ++ [LogEntry.snapshot])

/-- The backward inner loop over rows `i-1 .. 0` (descending). -/
def bwdInner (nc i : ℤ) (piv : ℚ) : ℕ → ℤ → Buf × List LogEntry → Buf × List LogEntry
  | 0, _, st => st
  | n + 1, row, st => bwdInner nc i piv n (row - 1) (bwdRowStep nc i row piv st)

/-- One iteration of the backward diagonal loop (row_reduction.c lines
738-805): a zero pivot does nothing at all; otherwise the row is scaled to a
unit pivot when needed (with a `[SCL]` line and a matrix printout), the local
pivot is reloaded, and the inner loop clears the column above. -/
def bwdStep (nc i : ℤ) (st : Buf × List LogEntry) : Buf × List LogEntry :=
  let piv := st.1 (i * nc + i)
  if piv = 0 then st
  else
    let st1 :=
      if piv ≠ 1 then
        let pr := 1 / piv
        (multiply_row_by_scalar st.1 i nc pr,
         st.2 ++ [LogEntry.sclOp (i + 1) pr, LogEntry.snapshot])
      else st
    bwdInner nc i (st1.1 (i * nc + i)) i.toNat (i - 1) st1

/-- The backward diagonal loop over `i = size_main_diagonal - 1 .. 0`. -/
def bwdLoop (nc : ℤ) : ℕ → ℤ → Buf × List LogEntry → Buf × List LogEntry
  | 0, _, st => st
  | n + 1, i, st => bwdLoop nc n (i - 1) (bwdStep nc i st)

/-- The local `augmented_matrix_metadata` as initialized at lines 611-613
(its remaining fields are uninitialized in C; they are modeled as 0 and are
never read before being written by `hstack`). -/
def gjAugMeta0 (metadata matrix_augment_metadata : MatrixMetadata) : MatrixMetadata :=
  { num_rows := metadata.num_rows,
    num_cols := metadata.num_cols + matrix_augment_metadata.num_cols,
    augmented_matrix_rank := 0, matrix_rank := 0, is_consistent := 0,
    matrix_determinant := 0 }

/-- The `hstack` call at line 614 that builds the internal augmented matrix
inside freshly `malloc`ed (indeterminate, modeled as 0) memory. -/
def gjHstack (matrix_to_reduce matrix_augment : Buf)
    (metadata matrix_augment_metadata : MatrixMetadata) : HstackResult :=
  hstack matrix_to_reduce matrix_augment (fun _ => 0) metadata matrix_augment_metadata
    (gjAugMeta0 metadata matrix_augment_metadata)

/-- `size_main_diagonal` as computed at lines 616-625, from the metadata the
`hstack` call just wrote. -/
def gjSizeMainDiagonal (matrix_to_reduce matrix_augment : Buf)
    (metadata matrix_augment_metadata : MatrixMetadata) : ℤ :=
  let amMeta := (gjHstack matrix_to_reduce matrix_augment metadata matrix_augment_metadata).destMeta
  if amMeta.num_cols - matrix_augment_metadata.num_cols ≤ amMeta.num_rows then
    amMeta.num_cols - matrix_augment_metadata.num_cols
  else amMeta.num_rows

/-- The state after the forward (echelon) phase, lines 627-727, starting from
`swap_rows_flag = 0`, `product_of_diagonal_elements = 1.0`,
`swap_multiplier = 1` and an empty log. -/
def gjForward (matrix_to_reduce matrix_augment : Buf)
    (metadata matrix_augment_metadata : MatrixMetadata) : FwdSt :=
  let hs := gjHstack matrix_to_reduce matrix_augment metadata matrix_augment_metadata
  fwdLoop hs.destMeta.num_cols hs.destMeta.num_rows
    (gjSizeMainDiagonal matrix_to_reduce matrix_augment metadata matrix_augment_metadata).toNat 0
    { A := hs.dest, flag := 0, mult := 1, prod := 1, log := [] }

/-- The internal augmented matrix and log after the backward (reduced
echelon) phase, lines 729-805. -/
def gjBackward (matrix_to_reduce matrix_augment : Buf)
    (metadata matrix_augment_metadata : MatrixMetadata) : Buf × List LogEntry :=
  let hs := gjHstack matrix_to_reduce matrix_augment metadata matrix_augment_metadata
  let size := gjSizeMainDiagonal matrix_to_reduce matrix_augment metadata matrix_augment_metadata
  let sF := gjForward matrix_to_reduce matrix_augment metadata matrix_augment_metadata
  bwdLoop hs.destMeta.num_cols size.toNat (size - 1)
    (sF.A,
     sF.log ++ [LogEntry.text "Shifting to Reduced Row Echelon Portion of Algorithm\n"])

/-- The Rank and Consistency Analyzer call at line 806: the caller-supplied
base matrix against the fully reduced internal augmented matrix. -/
def gjClassified (matrix_to_reduce matrix_augment : Buf)
    (metadata matrix_augment_metadata : MatrixMetadata) : MatrixMetadata × List LogEntry :=
  is_matrix_consistent_rouche_capelli matrix_to_reduce
    (gjBackward matrix_to_reduce matrix_augment metadata matrix_augment_metadata).1
    metadata
    (gjHstack matrix_to_reduce matrix_augment metadata matrix_augment_metadata).destMeta

/-- `denominator_value`: initialized to 1 at line 629 and never assigned
again anywhere in the function. -/
def gjDenominator : ℚ := 1

/-- Everything `python_perform_gauss_jordan_reduction` leaves behind: the
caller-visible buffers and metadata records after the call, the internal
augmented matrix content at the moment it is freed, the forward-phase
accumulators, the log, and the counts of heap allocations and frees the call
performed. -/
structure GJResult where
  base : Buf
  augment : Buf
  meta : MatrixMetadata
  augMeta : MatrixMetadata
  internalMeta : MatrixMetadata
  reduced : Buf
  prod : ℚ
  swapMult : ℤ
  log : List LogEntry
  allocs : ℕ
  frees : ℕ

/-- Model of `python_perform_gauss_jordan_reduction` (row_reduction.c lines
607-844). The one `malloc` (line 610) and the one `free` (line 843) are the
counted allocation events; the caller buffers `matrix_to_reduce` and
`matrix_augment` are only ever read (by `hstack` and by the analyzer), and
`matrix_augment_metadata` is only ever read, so they pass through unchanged;
line 807 prints the metadata; lines 808-841 write `matrix_determinant` and
four trace lines exactly when the analyzer left `is_consistent == 1`. -/
def python_perform_gauss_jordan_reduction (matrix_to_reduce matrix_augment : Buf)
    (metadata matrix_augment_metadata : MatrixMetadata) : GJResult :=
  let sF := gjForward matrix_to_reduce matrix_augment metadata matrix_augment_metadata
  let red := gjBackward matrix_to_reduce matrix_augment metadata matrix_augment_metadata
  let cc := gjClassified matrix_to_reduce matrix_augment metadata matrix_augment_metadata
  let log1 := red.2 ++ cc.2 ++ [LogEntry.metaDump]
  let fin :=
    if cc.1.is_consistent = 1 then
      ({ cc.1 with matrix_determinant := sF.prod / gjDenominator * (sF.mult : ℚ) },
       log1 ++
         [LogEntry.text "Product of Diagonal Elements is:",
          LogEntry.text "Denominator Value is:",
          LogEntry.text "Swap Multiplier is:",
          LogEntry.text "Determinant of matrix A is:"])
    else (cc.1, log1)
  { base := matrix_to_reduce, augment := matrix_augment, meta := fin.1,
    augMeta := matrix_augment_metadata,
    internalMeta := (gjHstack matrix_to_reduce matrix_augment metadata matrix_augment_metadata).destMeta,
    reduced := red.1, prod := sF.prod, swapMult := sF.mult, log := fin.2,
    allocs := 1, frees := 1 }

/-! ## Square matrix inversion (row_reduction.c lines 859-898) -/

/-- Column loop of `generate_square_identity_matrix`. -/
def genIdColsAux (nc row : ℤ) : ℕ → ℤ → Buf → Buf
  | 0, _, a => a
  | n + 1, col, a =>
    genIdColsAux nc row n (col + 1)
      (writeCell a (row * nc + col) (if row = col then 1 else 0))

/-- Row loop of `generate_square_identity_matrix`. -/
def genIdRowsAux (nc : ℤ) : ℕ → ℤ → Buf → Buf
  | 0, _, a => a
  | n + 1, row, a => genIdRowsAux nc n (row + 1) (genIdColsAux nc row nc.toNat 0 a)

/-- Model of `generate_square_identity_matrix` (row_reduction.c lines
154-172); the fresh allocation is modeled as a zero buffer. -/
def generate_square_identity_matrix (num_rows num_cols : ℤ) : Buf :=
  genIdRowsAux num_cols num_rows.toNat 0 (fun _ => 0)

/-- Everything the inversion routine leaves behind: the caller-visible buffer
and metadata after the call, the log, and the allocation/free counts. -/
structure InvResult where
  buf : Buf
  meta : MatrixMetadata
  log : List LogEntry
  allocs : ℕ
  frees : ℕ

/-- Model of `python_perform_square_matrix_inversion_gaussian_reduction`
(row_reduction.c lines 859-898). The two rank computations at lines 861-862
are reads only; the two early-return branches emit one message each and touch
nothing else; the success branch allocates the identity matrix, runs the
reduction engine (which mutates only the metadata), and frees it. The
identity metadata takes `num_rows` for BOTH dimensions, exactly as at lines
892-893; its remaining fields are uninitialized in C and modeled as 0. -/
def python_perform_square_matrix_inversion_gaussian_reduction (matrix_to_invert : Buf)
    (matrix_to_invert_metadata : MatrixMetadata) : InvResult :=
  let matrix_column_rank :=
    calculate_matrix_column_rank matrix_to_invert matrix_to_invert_metadata
  let matrix_row_rank := calculate_matrix_row_rank matrix_to_invert matrix_to_invert_metadata
  if matrix_to_invert_metadata.matrix_determinant = 0 then
    { buf := matrix_to_invert, meta := matrix_to_invert_metadata,
      log := [LogEntry.text
        "The matrix provided has a determinant of 0, meaning it is not invertible."],
      allocs := 0, frees := 0 }
  else if matrix_column_rank ≠ matrix_to_invert_metadata.num_cols
      ∨ matrix_row_rank ≠ matrix_to_invert_metadata.num_rows
      ∨ matrix_column_rank ≠ matrix_row_rank then
    { buf := matrix_to_invert, meta := matrix_to_invert_metadata,
      log := [LogEntry.text
        "The matrix provided does not have full rank and thus it is not invertible."],
      allocs := 0, frees := 0 }
  else
    let identity_matrix := generate_square_identity_matrix
      matrix_to_invert_metadata.num_rows matrix_to_invert_metadata.num_cols
    let idMeta : MatrixMetadata :=
      { num_rows := matrix_to_invert_metadata.num_rows,
        num_cols := matrix_to_invert_metadata.num_rows,
        augmented_matrix_rank := 0, matrix_rank := 0, is_consistent := 0,
        matrix_determinant := 0 }
    let r := python_perform_gauss_jordan_reduction matrix_to_invert identity_matrix
      matrix_to_invert_metadata idMeta
    { buf := r.base, meta := r.meta, log := r.log,
      allocs := 1 + r.allocs, frees := 1 + r.frees }

/-! ## Helper lemmas -/

/-- The consistency analyzer writes only `is_consistent`: every other
metadata field of the checked matrix passes through, and the written value is
0 or 1. -/
lemma rouche_capelli_fields (a ab : Buf) (mA mAb : MatrixMetadata) :
    (is_matrix_consistent_rouche_capelli a ab mA mAb).1.num_rows = mA.num_rows
    ∧ (is_matrix_consistent_rouche_capelli a ab mA mAb).1.num_cols = mA.num_cols
    ∧ (is_matrix_consistent_rouche_capelli a ab mA mAb).1.matrix_rank = mA.matrix_rank
    ∧ (is_matrix_consistent_rouche_capelli a ab mA mAb).1.augmented_matrix_rank
        = mA.augmented_matrix_rank
    ∧ (is_matrix_consistent_rouche_capelli a ab mA mAb).1.matrix_determinant
        = mA.matrix_determinant := by
  unfold is_matrix_consistent_rouche_capelli
  dsimp only
  split_ifs <;> simp

/-- The row-rank loop counts the rows whose all-zeros test fails. -/
lemma rowRankAux_count (m : Buf) (nc : ℤ) (n : ℕ) (r acc : ℤ) :
    rowRankAux m nc n r acc =
      acc + ((List.range n).countP (fun j : ℕ => ! row_has_all_zeros m (r + (j : ℤ)) nc) : ℕ) := by
  induction n generalizing r acc with
  | zero => simp [rowRankAux]
  | succ n ih =>
    rw [rowRankAux, ih, List.range_succ_eq_map]
    rw [List.countP_cons, List.countP_map]
    have hshift : ((List.range n).countP
          (fun j : ℕ => ! row_has_all_zeros m (r + 1 + (j : ℤ)) nc))
        = ((List.range n).countP
            ((fun j : ℕ => ! row_has_all_zeros m (r + (j : ℤ)) nc) ∘ Nat.succ)) := by
      apply List.countP_congr
      intro a _
      have : r + 1 + (a : ℤ) = r + ((a : ℤ) + 1) := by ring
      simp [Function.comp, this]
    rw [hshift]
    by_cases h : row_has_all_zeros m r nc
    · simp [h]
    · simp [h]
      ring

/-- `calculate_matrix_row_rank` is the number of rows of the matrix that are
not all zeros (up to the margin of error), read off `num_rows`/`num_cols`. -/
lemma calculate_matrix_row_rank_eq_count (m : Buf) (md : MatrixMetadata) :
    calculate_matrix_row_rank m md =
      (((List.range md.num_rows.toNat).countP
        (fun j : ℕ => ! row_has_all_zeros m (j : ℤ) md.num_cols)) : ℕ) := by
  rw [calculate_matrix_row_rank, rowRankAux_count]
  simp

/-! ## C3: the Rouche-Capelli consistency classifier -/

/-- C3: the classifier computes `rA` and `rAb` as the counts of non-all-zero
rows of the base and augmented matrices, sets `is_consistent` to 0 exactly
when `rA < rAb` and to 1 in every other case, emits exactly one
classification line per call, and distinguishes the
infinitely-many-solutions case (`rA == rAb < num_rows`) from the
unique-solution case (`rA == rAb == num_rows`) by the emitted line. -/
theorem rouche_capelli_classifier_correct (a ab : Buf) (mA mAb : MatrixMetadata) :
    ((is_matrix_consistent_rouche_capelli a ab mA mAb).1.is_consistent =
      if calculate_matrix_row_rank a mA < calculate_matrix_row_rank ab mAb then 0 else 1)
    ∧ (is_matrix_consistent_rouche_capelli a ab mA mAb).2.length = 1
    ∧ (calculate_matrix_row_rank a mA = calculate_matrix_row_rank ab mAb →
        calculate_matrix_row_rank a mA < mA.num_rows →
        (is_matrix_consistent_rouche_capelli a ab mA mAb).2 =
          [LogEntry.text "System of Equations is Consistent. Infinite solutions exist.\n"])
    ∧ (calculate_matrix_row_rank a mA = calculate_matrix_row_rank ab mAb →
        calculate_matrix_row_rank a mA = mA.num_rows →
        (is_matrix_consistent_rouche_capelli a ab mA mAb).2 =
          [LogEntry.text "System of Equations is Consistent. Unique solution exists.\n"])
    ∧ calculate_matrix_row_rank a mA =
        (((List.range mA.num_rows.toNat).countP
          (fun j : ℕ => ! row_has_all_zeros a (j : ℤ) mA.num_cols)) : ℕ)
    ∧ calculate_matrix_row_rank ab mAb =
        (((List.range mAb.num_rows.toNat).countP
          (fun j : ℕ => ! row_has_all_zeros ab (j : ℤ) mAb.num_cols)) : ℕ) := by
  refine ⟨?_, ?_, ?_, ?_, calculate_matrix_row_rank_eq_count a mA,
    calculate_matrix_row_rank_eq_count ab mAb⟩ <;>
    unfold is_matrix_consistent_rouche_capelli <;> dsimp only <;> split_ifs <;>
      simp_all <;> omega

/-! ## C1: rank metadata after the reduction engine -/

/-- The 1x1 input used to exercise the engine concretely: base matrix `[[1]]`,
augment `[[1]]`, with sentinel rank fields `-7` in the base metadata. -/
def cexBase : Buf := fun k => if k = 0 then 1 else 0

/-- The 1x1 augment column. -/
def cexAug : Buf := fun k => if k = 0 then 1 else 0

/-- Base metadata for the 1x1 run, with rank fields pre-set to `-7`. -/
def cexMeta : MatrixMetadata :=
  { num_rows := 1, num_cols := 1, augmented_matrix_rank := -7, matrix_rank := -7,
    is_consistent := 0, matrix_determinant := 0 }

/-- Augment metadata for the 1x1 run. -/
def cexAugMeta : MatrixMetadata :=
  { num_rows := 1, num_cols := 1, augmented_matrix_rank := 0, matrix_rank := 0,
    is_consistent := 0, matrix_determinant := 0 }

/-- C1 counterexample: after the engine returns on the 1x1 system
`[[1]] x = [[1]]`, the base metadata fields `matrix_rank` and
`augmented_matrix_rank` still hold their pre-call sentinel `-7`; they do NOT
hold the row rank of the base matrix (1) or of the fully reduced augmented
matrix (1). -/
theorem gauss_jordan_rank_population_counterexample :
    (python_perform_gauss_jordan_reduction cexBase cexAug cexMeta cexAugMeta).meta.matrix_rank
      ≠ calculate_matrix_row_rank cexBase cexMeta
    ∧ (python_perform_gauss_jordan_reduction cexBase cexAug cexMeta
          cexAugMeta).meta.augmented_matrix_rank
      ≠ calculate_matrix_row_rank
          (python_perform_gauss_jordan_reduction cexBase cexAug cexMeta cexAugMeta).reduced
          (python_perform_gauss_jordan_reduction cexBase cexAug cexMeta
            cexAugMeta).internalMeta := by
  constructor
  · have h1 : (python_perform_gauss_jordan_reduction cexBase cexAug cexMeta
        cexAugMeta).meta.matrix_rank = -7 := by with_unfolding_all rfl
    have h2 : calculate_matrix_row_rank cexBase cexMeta = 1 := by with_unfolding_all rfl
    rw [h1, h2]
    decide
  · have h1 : (python_perform_gauss_jordan_reduction cexBase cexAug cexMeta
        cexAugMeta).meta.augmented_matrix_rank = -7 := by with_unfolding_all rfl
    have h2 : calculate_matrix_row_rank
        (python_perform_gauss_jordan_reduction cexBase cexAug cexMeta cexAugMeta).reduced
        (python_perform_gauss_jordan_reduction cexBase cexAug cexMeta
          cexAugMeta).internalMeta = 1 := by with_unfolding_all rfl
    rw [h1, h2]
    decide

/-- C1 (amended): after every call to the reduction engine, `is_consistent`
has been populated by running the Rank and Consistency Analyzer on the base
matrix against the fully reduced augmented matrix, but `matrix_rank` and
`augmented_matrix_rank` are left exactly as the caller passed them in: the
analyzer computes both row ranks only into locals and never stores them in
the metadata. -/
theorem gauss_jordan_populates_consistency_only (matrix_to_reduce matrix_augment : Buf)
    (metadata matrix_augment_metadata : MatrixMetadata) :
    (python_perform_gauss_jordan_reduction matrix_to_reduce matrix_augment metadata
        matrix_augment_metadata).meta.matrix_rank = metadata.matrix_rank
    ∧ (python_perform_gauss_jordan_reduction matrix_to_reduce matrix_augment metadata
        matrix_augment_metadata).meta.augmented_matrix_rank = metadata.augmented_matrix_rank
    ∧ (python_perform_gauss_jordan_reduction matrix_to_reduce matrix_augment metadata
        matrix_augment_metadata).meta.is_consistent =
      (is_matrix_consistent_rouche_capelli matrix_to_reduce
        (python_perform_gauss_jordan_reduction matrix_to_reduce matrix_augment metadata
          matrix_augment_metadata).reduced
        metadata
        (python_perform_gauss_jordan_reduction matrix_to_reduce matrix_augment metadata
          matrix_augment_metadata).internalMeta).1.is_consistent := by
  obtain ⟨-, -, h3, h4, -⟩ := rouche_capelli_fields matrix_to_reduce
    (gjBackward matrix_to_reduce matrix_augment metadata matrix_augment_metadata).1
    metadata
    (gjHstack matrix_to_reduce matrix_augment metadata matrix_augment_metadata).destMeta
  unfold python_perform_gauss_jordan_reduction
  dsimp only
  by_cases h : (gjClassified matrix_to_reduce matrix_augment metadata
      matrix_augment_metadata).1.is_consistent = 1
  · rw [if_pos h]
    exact ⟨by simpa [gjClassified] using h3, by simpa [gjClassified] using h4,
      by simp [gjClassified]⟩
  · rw [if_neg h]
    exact ⟨by simpa [gjClassified] using h3, by simpa [gjClassified] using h4,
      by simp [gjClassified]⟩

/-! ## C2: the frame contract of the reduction engine -/

/-- C2: a call to the reduction engine leaves every element of the
caller-supplied base and augment buffers unchanged and leaves the augment
metadata record unchanged; it allocates exactly one internal augmented matrix
and frees it before returning; and on the base metadata record it preserves
`num_rows`, `num_cols`, `matrix_rank` and `augmented_matrix_rank`, so the
only caller-visible mutations are the base metadata consistency/determinant
fields. -/
theorem gauss_jordan_frame_contract (matrix_to_reduce matrix_augment : Buf)
    (metadata matrix_augment_metadata : MatrixMetadata) :
    (python_perform_gauss_jordan_reduction matrix_to_reduce matrix_augment metadata
        matrix_augment_metadata).base = matrix_to_reduce
    ∧ (python_perform_gauss_jordan_reduction matrix_to_reduce matrix_augment metadata
        matrix_augment_metadata).augment = matrix_augment
    ∧ (python_perform_gauss_jordan_reduction matrix_to_reduce matrix_augment metadata
        matrix_augment_metadata).augMeta = matrix_augment_metadata
    ∧ (python_perform_gauss_jordan_reduction matrix_to_reduce matrix_augment metadata
        matrix_augment_metadata).allocs = 1
    ∧ (python_perform_gauss_jordan_reduction matrix_to_reduce matrix_augment metadata
        matrix_augment_metadata).frees = 1
    ∧ (python_perform_gauss_jordan_reduction matrix_to_reduce matrix_augment metadata
        matrix_augment_metadata).meta.num_rows = metadata.num_rows
    ∧ (python_perform_gauss_jordan_reduction matrix_to_reduce matrix_augment metadata
        matrix_augment_metadata).meta.num_cols = metadata.num_cols
    ∧ (python_perform_gauss_jordan_reduction matrix_to_reduce matrix_augment metadata
        matrix_augment_metadata).meta.matrix_rank = metadata.matrix_rank
    ∧ (python_perform_gauss_jordan_reduction matrix_to_reduce matrix_augment metadata
        matrix_augment_metadata).meta.augmented_matrix_rank
        = metadata.augmented_matrix_rank := by
  obtain ⟨h1, h2, h3, h4, -⟩ := rouche_capelli_fields matrix_to_reduce
    (gjBackward matrix_to_reduce matrix_augment metadata matrix_augment_metadata).1
    metadata
    (gjHstack matrix_to_reduce matrix_augment metadata matrix_augment_metadata).destMeta
  refine ⟨rfl, rfl, rfl, rfl, rfl, ?_, ?_, ?_, ?_⟩ <;>
    · unfold python_perform_gauss_jordan_reduction
      dsimp only
      by_cases h : (gjClassified matrix_to_reduce matrix_augment metadata
          matrix_augment_metadata).1.is_consistent = 1
      · rw [if_pos h]
        first
          | exact by simpa [gjClassified] using h1
          | exact by simpa [gjClassified] using h2
          | exact by simpa [gjClassified] using h3
          | exact by simpa [gjClassified] using h4
      · rw [if_neg h]
        first
          | exact by simpa [gjClassified] using h1
          | exact by simpa [gjClassified] using h2
          | exact by simpa [gjClassified] using h3
          | exact by simpa [gjClassified] using h4

/-! ## C4: the determinant update -/

/-- C4: the engine assigns
`matrix_determinant = (product_of_diagonal_elements / denominator_value) * swap_multiplier`
if and only if the consistency classifier set `is_consistent` to 1, where the
product and multiplier are the forward-phase accumulators of the call and
`denominator_value` stays fixed at 1; when the system is classified
inconsistent, `matrix_determinant` keeps the value the caller passed in. -/
theorem gauss_jordan_determinant_update (matrix_to_reduce matrix_augment : Buf)
    (metadata matrix_augment_metadata : MatrixMetadata) :
    gjDenominator = 1
    ∧ (python_perform_gauss_jordan_reduction matrix_to_reduce matrix_augment metadata
        matrix_augment_metadata).prod =
      (gjForward matrix_to_reduce matrix_augment metadata matrix_augment_metadata).prod
    ∧ (python_perform_gauss_jordan_reduction matrix_to_reduce matrix_augment metadata
        matrix_augment_metadata).swapMult =
      (gjForward matrix_to_reduce matrix_augment metadata matrix_augment_metadata).mult
    ∧ (python_perform_gauss_jordan_reduction matrix_to_reduce matrix_augment metadata
        matrix_augment_metadata).meta.matrix_determinant =
      (if (python_perform_gauss_jordan_reduction matrix_to_reduce matrix_augment metadata
            matrix_augment_metadata).meta.is_consistent = 1 then
        (python_perform_gauss_jordan_reduction matrix_to_reduce matrix_augment metadata
            matrix_augment_metadata).prod / gjDenominator *
          ((python_perform_gauss_jordan_reduction matrix_to_reduce matrix_augment metadata
              matrix_augment_metadata).swapMult : ℚ)
       else metadata.matrix_determinant) := by
  obtain ⟨-, -, -, -, h5⟩ := rouche_capelli_fields matrix_to_reduce
    (gjBackward matrix_to_reduce matrix_augment metadata matrix_augment_metadata).1
    metadata
    (gjHstack matrix_to_reduce matrix_augment metadata matrix_augment_metadata).destMeta
  refine ⟨rfl, rfl, rfl, ?_⟩
  unfold python_perform_gauss_jordan_reduction
  dsimp only
  by_cases h : (gjClassified matrix_to_reduce matrix_augment metadata
      matrix_augment_metadata).1.is_consistent = 1
  · rw [if_pos h]
    simp [h]
  · rw [if_neg h]
    rw [if_neg h]
    simpa [gjClassified] using h5

/-! ## C5: early returns of the matrix inversion routine -/

/-- C5: whenever the stored determinant is 0, or the computed row rank or
column rank differs from `num_rows`/`num_cols`, the inversion routine emits
exactly one descriptive message and returns early: the matrix buffer and
every metadata field are unchanged and no heap allocation is performed. -/
theorem inversion_early_return (matrix_to_invert : Buf)
    (matrix_to_invert_metadata : MatrixMetadata)
    (h : matrix_to_invert_metadata.matrix_determinant = 0
      ∨ calculate_matrix_row_rank matrix_to_invert matrix_to_invert_metadata
          ≠ matrix_to_invert_metadata.num_rows
      ∨ calculate_matrix_column_rank matrix_to_invert matrix_to_invert_metadata
          ≠ matrix_to_invert_metadata.num_cols) :
    (python_perform_square_matrix_inversion_gaussian_reduction matrix_to_invert
        matrix_to_invert_metadata).buf = matrix_to_invert
    ∧ (python_perform_square_matrix_inversion_gaussian_reduction matrix_to_invert
        matrix_to_invert_metadata).meta = matrix_to_invert_metadata
    ∧ (python_perform_square_matrix_inversion_gaussian_reduction matrix_to_invert
        matrix_to_invert_metadata).log.length = 1
    ∧ (python_perform_square_matrix_inversion_gaussian_reduction matrix_to_invert
        matrix_to_invert_metadata).allocs = 0
    ∧ (python_perform_square_matrix_inversion_gaussian_reduction matrix_to_invert
        matrix_to_invert_metadata).frees = 0 := by
  unfold python_perform_square_matrix_inversion_gaussian_reduction
  dsimp only
  by_cases hdet : matrix_to_invert_metadata.matrix_determinant = 0
  · rw [if_pos hdet]
    exact ⟨rfl, rfl, rfl, rfl, rfl⟩
  · rw [if_neg hdet]
    have hrank : calculate_matrix_column_rank matrix_to_invert matrix_to_invert_metadata
          ≠ matrix_to_invert_metadata.num_cols
        ∨ calculate_matrix_row_rank matrix_to_invert matrix_to_invert_metadata
          ≠ matrix_to_invert_metadata.num_rows
        ∨ calculate_matrix_column_rank matrix_to_invert matrix_to_invert_metadata
          ≠ calculate_matrix_row_rank matrix_to_invert matrix_to_invert_metadata := by
      rcases h with h | h | h
      · exact absurd h hdet
      · exact Or.inr (Or.inl h)
      · exact Or.inl h
    rw [if_pos hrank]
    exact ⟨rfl, rfl, rfl, rfl, rfl⟩

/-- A 1x1 matrix metadata record with determinant 0. -/
def invMeta0 : MatrixMetadata :=
  { num_rows := 1, num_cols := 1, augmented_matrix_rank := 0, matrix_rank := 0,
    is_consistent := 0, matrix_determinant := 0 }

/-- Witness for C5 at the concrete input: the all-ones 1x1 matrix whose
metadata holds determinant 0. -/
theorem inversion_early_return_witness :
    (python_perform_square_matrix_inversion_gaussian_reduction (fun _ => 1) invMeta0).meta
        = invMeta0
    ∧ (python_perform_square_matrix_inversion_gaussian_reduction (fun _ => 1)
        invMeta0).log.length = 1
    ∧ (python_perform_square_matrix_inversion_gaussian_reduction (fun _ => 1)
        invMeta0).allocs = 0 := by
  have h := inversion_early_return (fun _ => 1) invMeta0 (Or.inl (by with_unfolding_all rfl))
  exact ⟨h.2.1, h.2.2.1, h.2.2.2.1⟩

/-! ## C7: readDouble and unsigned exponents -/

/-- C7: on the input "2e3" (offset 0, length 3), `readDouble` returns 2, not
2000: because the exponent-digit-reading loop sits inside the
`if (c == '-')` branch, an exponent without a `-` sign is never read, the
exponent stays 0, the divisor is never shrunk, and the final offset (2) shows
the digit `3` was left unconsumed. The positive-exponent
`divisor = divisor / 10` loop of the source is unreachable with a nonzero
exponent. -/
theorem readDouble_unsigned_exponent_ignored :
    (readDouble arrTwoEThree 0 3 0).1 = 2 ∧ (readDouble arrTwoEThree 0 3 0).2 = 2 := by
  exact ⟨by with_unfolding_all rfl, by with_unfolding_all rfl⟩

/-! ## C8: writeDecimalNumberRightJustify duplicates the number -/

/-- A fresh write-mode sink of capacity 10 over a blank buffer. -/
def c8Sink : CString := mkCString (some (fun _ => ' ')) 10

/-- C8: `writeDecimalNumberRightJustify 5 0 0` on a fresh sink renders the
number twice: the measuring write is followed by the `else`-branch rewrite
without any rewind, so the sink holds "55" with length 2, while a single
plain `writeDecimalNumber 5 0` call leaves "5" with length 1. The integer
form `writeNumberRightJustify` has no such `else` branch. -/
theorem writeDecimalNumberRightJustify_duplicates :
    (writeDecimalNumberRightJustify 5 0 0 c8Sink).length = 2
    ∧ bufAt (writeDecimalNumberRightJustify 5 0 0 c8Sink) 0 = '5'
    ∧ bufAt (writeDecimalNumberRightJustify 5 0 0 c8Sink) 1 = '5'
    ∧ (writeDecimalNumber 5 0 c8Sink).length = 1
    ∧ bufAt (writeDecimalNumber 5 0 c8Sink) 0 = '5'
    ∧ bufAt (writeDecimalNumber 5 0 c8Sink) 1 = ' ' := by
  refine ⟨by decide, by decide, by decide, by decide, by decide, by decide⟩

/-! ## C6: write mode vs count-only mode of the text sink -/

/-- `putByte` keeps a destination buffer present. -/
lemma putByte_bytes_isSome (c : Char) (s : CString) (h : s.bytes.isSome) :
    (putByte c s).bytes.isSome := by
  cases hb : s.bytes with
  | none => rw [hb] at h; simp at h
  | some b => simp [putByte, hb]

/-- Closed form of the write-mode copy loop for a sink whose length is within
capacity: the length advances by the string length, saturating at capacity,
and the overflow flag is set exactly when the string did not fit. -/
lemma writeNulTerminatedStringLoopW_spec (cs : List Char) (s : CString)
    (hb : s.bytes.isSome) (h : s.length ≤ s.capacity) :
    (writeNulTerminatedStringLoopW cs s).length =
      (if s.length + (cs.length : ℤ) ≤ s.capacity then s.length + (cs.length : ℤ)
       else s.capacity)
    ∧ (writeNulTerminatedStringLoopW cs s).attemptedToWriteMoreThanCapacity =
      (s.attemptedToWriteMoreThanCapacity
        || decide (s.capacity < s.length + (cs.length : ℤ)))
    ∧ (writeNulTerminatedStringLoopW cs s).capacity = s.capacity
    ∧ (writeNulTerminatedStringLoopW cs s).bytes.isSome := by
  induction cs generalizing s with
  | nil =>
    refine ⟨?_, ?_, rfl, hb⟩
    · simp only [writeNulTerminatedStringLoopW, List.length_nil, Int.natCast_zero, add_zero]
      rw [if_pos h]
    · simp only [writeNulTerminatedStringLoopW, List.length_nil, Int.natCast_zero, add_zero]
      rw [decide_eq_false (not_lt.2 h), Bool.or_false]
  | cons ch rest ih =>
    rw [writeNulTerminatedStringLoopW]
    by_cases hlt : s.length < s.capacity
    · rw [if_pos hlt]
      obtain ⟨i1, i2, i3, i4⟩ := ih (putByte ch s) (putByte_bytes_isSome ch s hb)
        (by simp [putByte]; omega)
      refine ⟨?_, ?_, by simpa [putByte] using i3, i4⟩
      · rw [i1]
        simp only [putByte, List.length_cons]
        have hiff : s.length + 1 + (rest.length : ℤ) ≤ s.capacity
            ↔ s.length + ((rest.length : ℤ) + 1) ≤ s.capacity := by omega
        push_cast
        split_ifs with h1 h2 h2 <;> omega
      · rw [i2]
        simp only [putByte, List.length_cons]
        push_cast
        congr 1
        rw [decide_eq_decide]
        omega
    · rw [if_neg hlt]
      have hEq : s.length = s.capacity := le_antisymm h (not_lt.1 hlt)
      refine ⟨?_, ?_, rfl, hb⟩
      · simp only [List.length_cons]
        rw [if_neg (by push_cast; omega)]
        exact hEq
      · simp only [List.length_cons]
        rw [decide_eq_true (by push_cast; omega), Bool.or_true]

/-- Closed form of the write-mode space loop: the same shape as the copy
loop, one space per iteration. -/
lemma writeSpacesLoopW_spec (n : ℕ) (s : CString)
    (hb : s.bytes.isSome) (h : s.length ≤ s.capacity) :
    (writeSpacesLoopW n s).length =
      (if s.length + (n : ℤ) ≤ s.capacity then s.length + (n : ℤ) else s.capacity)
    ∧ (writeSpacesLoopW n s).attemptedToWriteMoreThanCapacity =
      (s.attemptedToWriteMoreThanCapacity || decide (s.capacity < s.length + (n : ℤ)))
    ∧ (writeSpacesLoopW n s).capacity = s.capacity
    ∧ (writeSpacesLoopW n s).bytes.isSome := by
  induction n generalizing s with
  | zero =>
    refine ⟨?_, ?_, rfl, hb⟩
    · simp only [writeSpacesLoopW, Int.natCast_zero, add_zero]
      rw [if_pos h]
    · simp only [writeSpacesLoopW, Int.natCast_zero, add_zero]
      rw [decide_eq_false (not_lt.2 h), Bool.or_false]
  | succ n ih =>
    rw [writeSpacesLoopW]
    by_cases hlt : s.length < s.capacity
    · rw [if_pos hlt]
      obtain ⟨i1, i2, i3, i4⟩ := ih (putByte ' ' s) (putByte_bytes_isSome ' ' s hb)
        (by simp [putByte]; omega)
      refine ⟨?_, ?_, by simpa [putByte] using i3, i4⟩
      · rw [i1]
        simp only [putByte]
        push_cast
        split_ifs with h1 h2 h2 <;> omega
      · rw [i2]
        simp only [putByte]
        push_cast
        congr 1
        rw [decide_eq_decide]
        omega
    · rw [if_neg hlt]
      have hEq : s.length = s.capacity := le_antisymm h (not_lt.1 hlt)
      refine ⟨?_, ?_, rfl, hb⟩
      · rw [if_neg (by push_cast; omega)]
        exact hEq
      · rw [decide_eq_true (by push_cast; omega), Bool.or_true]

/-- Closed form of the write-mode zero loop: identical to the space loop. -/
lemma writeZerosLoopW_spec (n : ℕ) (s : CString)
    (hb : s.bytes.isSome) (h : s.length ≤ s.capacity) :
    (writeZerosLoopW n s).length =
      (if s.length + (n : ℤ) ≤ s.capacity then s.length + (n : ℤ) else s.capacity)
    ∧ (writeZerosLoopW n s).attemptedToWriteMoreThanCapacity =
      (s.attemptedToWriteMoreThanCapacity || decide (s.capacity < s.length + (n : ℤ)))
    ∧ (writeZerosLoopW n s).capacity = s.capacity
    ∧ (writeZerosLoopW n s).bytes.isSome := by
  induction n generalizing s with
  | zero =>
    refine ⟨?_, ?_, rfl, hb⟩
    · simp only [writeZerosLoopW, Int.natCast_zero, add_zero]
      rw [if_pos h]
    · simp only [writeZerosLoopW, Int.natCast_zero, add_zero]
      rw [decide_eq_false (not_lt.2 h), Bool.or_false]
  | succ n ih =>
    rw [writeZerosLoopW]
    by_cases hlt : s.length < s.capacity
    · rw [if_pos hlt]
      obtain ⟨i1, i2, i3, i4⟩ := ih (putByte '0' s) (putByte_bytes_isSome '0' s hb)
        (by simp [putByte]; omega)
      refine ⟨?_, ?_, by simpa [putByte] using i3, i4⟩
      · rw [i1]
        simp only [putByte]
        push_cast
        split_ifs with h1 h2 h2 <;> omega
      · rw [i2]
        simp only [putByte]
        push_cast
        congr 1
        rw [decide_eq_decide]
        omega
    · rw [if_neg hlt]
      have hEq : s.length = s.capacity := le_antisymm h (not_lt.1 hlt)
      refine ⟨?_, ?_, rfl, hb⟩
      · rw [if_neg (by push_cast; omega)]
        exact hEq
      · rw [decide_eq_true (by push_cast; omega), Bool.or_true]

/-- The no-terminator copy loop is the very copy loop of
`writeNulTerminatedString`. -/
lemma writeStringNoNullTerminatorLoopW_eq (cs : List Char) (s : CString) :
    writeStringNoNullTerminatorLoopW cs s = writeNulTerminatedStringLoopW cs s := by
  induction cs generalizing s with
  | nil => rfl
  | cons ch rest ih =>
    rw [writeStringNoNullTerminatorLoopW, writeNulTerminatedStringLoopW]
    by_cases hlt : s.length < s.capacity
    · rw [if_pos hlt, if_pos hlt, ih]
    · rw [if_neg hlt, if_neg hlt]

/-- The uniform sink transition: writing (or counting) `k` characters
advances the length by `k` saturating at the capacity, sets the overflow flag
exactly when the `k` characters exceed the remaining capacity, and preserves
the capacity and the mode. -/
def SinkEmits (s : CString) (k : ℤ) (t : CString) : Prop :=
  t.length = min (s.length + k) s.capacity
  ∧ t.attemptedToWriteMoreThanCapacity =
      (s.attemptedToWriteMoreThanCapacity || decide (s.capacity < s.length + k))
  ∧ t.capacity = s.capacity
  ∧ t.bytes.isSome = s.bytes.isSome

/-- An emitted-to sink is back within capacity. -/
lemma sinkEmits_le (s t : CString) (k : ℤ) (h : SinkEmits s k t) :
    t.length ≤ t.capacity := by
  obtain ⟨e1, -, e3, -⟩ := h
  rw [e1, e3]
  exact min_le_right _ _

/-- Rewriting the character count of a transition. -/
lemma sinkEmits_congr_k (s t : CString) (k1 k2 : ℤ) (hk : k1 = k2)
    (h : SinkEmits s k1 t) : SinkEmits s k2 t := hk ▸ h

/-- The empty transition. -/
lemma sinkEmits_zero (s : CString) (hle : s.length ≤ s.capacity) : SinkEmits s 0 s := by
  refine ⟨by omega, ?_, rfl, rfl⟩
  rw [decide_eq_false (by omega), Bool.or_false]

/-- Transitions compose, adding the character counts. -/
lemma sinkEmits_trans (s t u : CString) (k1 k2 : ℤ) (hk2 : 0 ≤ k2)
    (_hle : s.length ≤ s.capacity)
    (h1 : SinkEmits s k1 t) (h2 : SinkEmits t k2 u) : SinkEmits s (k1 + k2) u := by
  obtain ⟨a1, a2, a3, a4⟩ := h1
  obtain ⟨b1, b2, b3, b4⟩ := h2
  refine ⟨?_, ?_, by rw [b3, a3], by rw [b4, a4]⟩
  · rw [b1, a1, a3]
    omega
  · rw [b2, a2, a1, a3, Bool.or_assoc]
    congr 1
    by_cases hcase : s.capacity < s.length + k1
    · rw [decide_eq_true hcase, Bool.true_or, decide_eq_true (by omega)]
    · rw [decide_eq_false hcase, Bool.false_or, decide_eq_decide]
      omega

/-- A transition from a sink with the same observable fields is a transition
from the original sink. -/
lemma sinkEmits_retarget (s t u : CString) (k : ℤ)
    (hlen : t.length = s.length)
    (hflag : t.attemptedToWriteMoreThanCapacity = s.attemptedToWriteMoreThanCapacity)
    (hcap : t.capacity = s.capacity) (hb : t.bytes.isSome = s.bytes.isSome)
    (h : SinkEmits t k u) : SinkEmits s k u := by
  obtain ⟨f1, f2, f3, f4⟩ := h
  exact ⟨by rw [f1, hlen, hcap], by rw [f2, hflag, hlen, hcap], by rw [f3, hcap],
    by rw [f4, hb]⟩

/-- `writeChar` emits one character, in either mode. -/
lemma writeChar_emits (c : Char) (s : CString) (hle : s.length ≤ s.capacity) :
    SinkEmits s 1 (writeChar c s) := by
  unfold writeChar
  by_cases hlt : s.length < s.capacity
  · rw [if_pos hlt]
    refine ⟨?_, ?_, rfl, ?_⟩
    · show s.length + 1 = min (s.length + 1) s.capacity
      omega
    · show s.attemptedToWriteMoreThanCapacity
        = (s.attemptedToWriteMoreThanCapacity || decide (s.capacity < s.length + 1))
      rw [decide_eq_false (by omega), Bool.or_false]
    · cases hb : s.bytes <;> simp [putByte, hb]
  · rw [if_neg hlt]
    refine ⟨?_, ?_, rfl, rfl⟩
    · show s.length = min (s.length + 1) s.capacity
      omega
    · show true = (s.attemptedToWriteMoreThanCapacity || decide (s.capacity < s.length + 1))
      rw [decide_eq_true (by omega), Bool.or_true]

/-- `writeSpaces` with a nonnegative count emits that count, in either
mode. -/
lemma writeSpaces_emits (n : ℤ) (s : CString) (hn : 0 ≤ n)
    (hle : s.length ≤ s.capacity) : SinkEmits s n (writeSpaces n s) := by
  cases hb : s.bytes with
  | some b =>
    simp only [writeSpaces, hb]
    obtain ⟨l1, l2, l3, l4⟩ := writeSpacesLoopW_spec n.toNat s (by rw [hb]; rfl) hle
    rw [Int.toNat_of_nonneg hn] at l1 l2
    refine ⟨?_, ?_, l3, ?_⟩
    · rw [l1]
      split_ifs <;> omega
    · rw [l2]
    · rw [l4, hb]
      rfl
  | none =>
    simp only [writeSpaces, hb]
    by_cases hfit : s.length + n ≤ s.capacity
    · rw [if_pos hfit]
      refine ⟨?_, ?_, rfl, by rw [hb]⟩
      · show s.length + n = min (s.length + n) s.capacity
        omega
      · show s.attemptedToWriteMoreThanCapacity
            = (s.attemptedToWriteMoreThanCapacity || decide (s.capacity < s.length + n))
        rw [decide_eq_false (by omega), Bool.or_false]
    · rw [if_neg hfit]
      refine ⟨?_, ?_, rfl, by rw [hb]⟩
      · show s.capacity = min (s.length + n) s.capacity
        omega
      · show true = (s.attemptedToWriteMoreThanCapacity
            || decide (s.capacity < s.length + n))
        rw [decide_eq_true (by omega), Bool.or_true]

/-- `writeZeros` with a nonnegative count emits that count, in either mode. -/
lemma writeZeros_emits (n : ℤ) (s : CString) (hn : 0 ≤ n)
    (hle : s.length ≤ s.capacity) : SinkEmits s n (writeZeros n s) := by
  cases hb : s.bytes with
  | some b =>
    simp only [writeZeros, hb]
    obtain ⟨l1, l2, l3, l4⟩ := writeZerosLoopW_spec n.toNat s (by rw [hb]; rfl) hle
    rw [Int.toNat_of_nonneg hn] at l1 l2
    refine ⟨?_, ?_, l3, ?_⟩
    · rw [l1]
      split_ifs <;> omega
    · rw [l2]
    · rw [l4, hb]
      rfl
  | none =>
    simp only [writeZeros, hb]
    by_cases hfit : s.length + n ≤ s.capacity
    · rw [if_pos hfit]
      refine ⟨?_, ?_, rfl, by rw [hb]⟩
      · show s.length + n = min (s.length + n) s.capacity
        omega
      · show s.attemptedToWriteMoreThanCapacity
            = (s.attemptedToWriteMoreThanCapacity || decide (s.capacity < s.length + n))
        rw [decide_eq_false (by omega), Bool.or_false]
    · rw [if_neg hfit]
      refine ⟨?_, ?_, rfl, by rw [hb]⟩
      · show s.capacity = min (s.length + n) s.capacity
        omega
      · show true = (s.attemptedToWriteMoreThanCapacity
            || decide (s.capacity < s.length + n))
        rw [decide_eq_true (by omega), Bool.or_true]

/-- `writeNulTerminatedString` emits the string length, in either mode. -/
lemma writeNulTerminatedString_emits (cs : List Char) (s : CString)
    (hle : s.length ≤ s.capacity) :
    SinkEmits s (cs.length : ℤ) (writeNulTerminatedString cs s) := by
  cases hb : s.bytes with
  | some b =>
    simp only [writeNulTerminatedString, hb]
    obtain ⟨l1, l2, l3, l4⟩ := writeNulTerminatedStringLoopW_spec cs s (by rw [hb]; rfl) hle
    refine ⟨?_, ?_, l3, ?_⟩
    · rw [l1]
      split_ifs <;> omega
    · rw [l2]
    · rw [l4, hb]
      rfl
  | none =>
    simp only [writeNulTerminatedString, hb]
    by_cases hfit : s.length + (cs.length : ℤ) ≤ s.capacity
    · rw [if_pos hfit]
      refine ⟨?_, ?_, rfl, by rw [hb]⟩
      · show s.length + (cs.length : ℤ) = min (s.length + (cs.length : ℤ)) s.capacity
        omega
      · show s.attemptedToWriteMoreThanCapacity = (s.attemptedToWriteMoreThanCapacity
            || decide (s.capacity < s.length + (cs.length : ℤ)))
        rw [decide_eq_false (by omega), Bool.or_false]
    · rw [if_neg hfit]
      refine ⟨?_, ?_, rfl, by rw [hb]⟩
      · show s.capacity = min (s.length + (cs.length : ℤ)) s.capacity
        omega
      · show true = (s.attemptedToWriteMoreThanCapacity
            || decide (s.capacity < s.length + (cs.length : ℤ)))
        rw [decide_eq_true (by omega), Bool.or_true]

/-- `writeStringNoNullTerminator` emits the string length, in either mode. -/
lemma writeStringNoNullTerminator_emits (cs : List Char) (s : CString)
    (hle : s.length ≤ s.capacity) :
    SinkEmits s (cs.length : ℤ) (writeStringNoNullTerminator cs s) := by
  cases hb : s.bytes with
  | some b =>
    simp only [writeStringNoNullTerminator, hb, writeStringNoNullTerminatorLoopW_eq]
    obtain ⟨l1, l2, l3, l4⟩ := writeNulTerminatedStringLoopW_spec cs s (by rw [hb]; rfl) hle
    refine ⟨?_, ?_, l3, ?_⟩
    · rw [l1]
      split_ifs <;> omega
    · rw [l2]
    · rw [l4, hb]
      rfl
  | none =>
    simp only [writeStringNoNullTerminator, hb]
    by_cases hfit : s.length + (cs.length : ℤ) ≤ s.capacity
    · rw [if_pos hfit]
      refine ⟨?_, ?_, rfl, by rw [hb]⟩
      · show s.length + (cs.length : ℤ) = min (s.length + (cs.length : ℤ)) s.capacity
        omega
      · show s.attemptedToWriteMoreThanCapacity = (s.attemptedToWriteMoreThanCapacity
            || decide (s.capacity < s.length + (cs.length : ℤ)))
        rw [decide_eq_false (by omega), Bool.or_false]
    · rw [if_neg hfit]
      refine ⟨?_, ?_, rfl, by rw [hb]⟩
      · show s.capacity = min (s.length + (cs.length : ℤ)) s.capacity
        omega
      · show true = (s.attemptedToWriteMoreThanCapacity
            || decide (s.capacity < s.length + (cs.length : ℤ)))
        rw [decide_eq_true (by omega), Bool.or_true]

/-- `writeNulTerminatedStringRightJustify` emits padding plus string length,
in either mode. -/
lemma writeNulTerminatedStringRightJustify_emits (cs : List Char) (endLength : ℤ)
    (s : CString) (hle : s.length ≤ s.capacity) :
    SinkEmits s
      ((if (cs.length : ℤ) < endLength - s.length
        then (endLength - s.length) - (cs.length : ℤ) else 0) + (cs.length : ℤ))
      (writeNulTerminatedStringRightJustify cs endLength s) := by
  cases hb : s.bytes with
  | some b =>
    simp only [writeNulTerminatedStringRightJustify, hb]
    set ns : ℤ := (if (cs.length : ℤ) < endLength - s.length
        then (endLength - s.length) - (cs.length : ℤ) else 0) with hns2
    have hns : 0 ≤ ns := by rw [hns2]; split_ifs <;> omega
    have h1 := writeSpaces_emits ns s hns hle
    have h2 := writeNulTerminatedString_emits cs (writeSpaces ns s) (sinkEmits_le _ _ _ h1)
    exact sinkEmits_trans s _ _ ns (cs.length : ℤ) (Int.natCast_nonneg _) hle h1 h2
  | none =>
    simp only [writeNulTerminatedStringRightJustify, hb]
    set ns : ℤ := (if (cs.length : ℤ) < endLength - s.length
        then (endLength - s.length) - (cs.length : ℤ) else 0) with hns2
    have hns : 0 ≤ ns := by rw [hns2]; split_ifs <;> omega
    by_cases hfit : s.length + ns + (cs.length : ℤ) ≤ s.capacity
    · rw [if_pos hfit]
      refine ⟨?_, ?_, rfl, by rw [hb]⟩
      · show s.length + ns + (cs.length : ℤ)
            = min (s.length + (ns + (cs.length : ℤ))) s.capacity
        omega
      · show s.attemptedToWriteMoreThanCapacity = (s.attemptedToWriteMoreThanCapacity
            || decide (s.capacity < s.length + (ns + (cs.length : ℤ))))
        rw [decide_eq_false (by omega), Bool.or_false]
    · rw [if_neg hfit]
      refine ⟨?_, ?_, rfl, by rw [hb]⟩
      · show s.capacity = min (s.length + (ns + (cs.length : ℤ))) s.capacity
        omega
      · show true = (s.attemptedToWriteMoreThanCapacity
            || decide (s.capacity < s.length + (ns + (cs.length : ℤ))))
        rw [decide_eq_true (by omega), Bool.or_true]

/-- The magnitude descent tracks its pure mirrors and emits one character per
counted digit, in either mode. -/
lemma wdnMagLoop_emits (ten : ℤ) (n : ℕ) (mag : ℤ) (found : Bool) (v : ℤ) (s : CString)
    (hle : s.length ≤ s.capacity) :
    (wdnMagLoop ten n mag found v s).1 = (wdnMagVM ten n mag found v).1
    ∧ (wdnMagLoop ten n mag found v s).2.1 = (wdnMagVM ten n mag found v).2
    ∧ SinkEmits s ((wdnMagCount ten n mag found v : ℕ) : ℤ)
        (wdnMagLoop ten n mag found v s).2.2 := by
  induction n generalizing mag found v s with
  | zero =>
    simp only [wdnMagLoop, wdnMagVM, wdnMagCount, Int.natCast_zero]
    exact ⟨trivial, trivial, sinkEmits_zero s hle⟩
  | succ n ih =>
    simp only [wdnMagLoop, wdnMagVM, wdnMagCount]
    by_cases hmag : ten ≤ mag
    · simp only [if_pos hmag]
      by_cases hfound : (found || decide (mag ≤ v)) = true
      · simp only [if_pos hfound]
        have hwc := writeChar_emits (Char.ofNat (48 + (v / mag).toNat)) s hle
        obtain ⟨i1, i2, i3⟩ := ih (mag / 10) (found || decide (mag ≤ v))
          (v - v / mag * mag) (writeChar (Char.ofNat (48 + (v / mag).toNat)) s)
          (sinkEmits_le _ _ _ hwc)
        refine ⟨i1, i2, ?_⟩
        have htr := sinkEmits_trans s _ _ 1 _ (Int.natCast_nonneg _) hle hwc i3
        exact sinkEmits_congr_k _ _ _ _ (by push_cast; ring) htr
      · simp only [if_neg hfound]
        exact ih (mag / 10) (found || decide (mag ≤ v)) v s hle
    · simp only [if_neg hmag, Int.natCast_zero]
      exact ⟨trivial, trivial, sinkEmits_zero s hle⟩

/-- The fraction loop emits one character per counted digit, in either
mode. -/
lemma wdnFracLoop_emits (n : ℕ) (mag v : ℤ) (s : CString)
    (hle : s.length ≤ s.capacity) :
    SinkEmits s ((wdnFracCount n mag : ℕ) : ℤ) (wdnFracLoop n mag v s) := by
  induction n generalizing mag v s with
  | zero =>
    simp only [wdnFracLoop, wdnFracCount, Int.natCast_zero]
    exact sinkEmits_zero s hle
  | succ n ih =>
    simp only [wdnFracLoop, wdnFracCount]
    by_cases hmag : 1 ≤ mag
    · simp only [if_pos hmag]
      have hwc := writeChar_emits (Char.ofNat (48 + (v / mag).toNat)) s hle
      have hrec := ih (mag / 10) (v - v / mag * mag)
        (writeChar (Char.ofNat (48 + (v / mag).toNat)) s) (sinkEmits_le _ _ _ hwc)
      have htr := sinkEmits_trans s _ _ 1 _ (Int.natCast_nonneg _) hle hwc hrec
      exact sinkEmits_congr_k _ _ _ _ (by push_cast; ring) htr
    · simp only [if_neg hmag, Int.natCast_zero]
      exact sinkEmits_zero s hle

/-- The magnitude descent followed by the always-written ones place. -/
lemma magThenOnes_emits (ten v0 : ℤ) (s : CString) (hle : s.length ≤ s.capacity) :
    SinkEmits s (((wdnMagCount ten 19 1000000000000000000 false v0 : ℕ) : ℤ) + 1)
      (writeChar
        (Char.ofNat (48 + ((wdnMagLoop ten 19 1000000000000000000 false v0 s).1 / (wdnMagLoop ten 19 1000000000000000000 false v0 s).2.1).toNat))
        (wdnMagLoop ten 19 1000000000000000000 false v0 s).2.2) := by
  obtain ⟨-, -, h2⟩ := wdnMagLoop_emits ten 19 1000000000000000000 false v0 s hle
  have hwc := writeChar_emits
    (Char.ofNat (48 + ((wdnMagLoop ten 19 1000000000000000000 false v0 s).1 / (wdnMagLoop ten 19 1000000000000000000 false v0 s).2.1).toNat))
    (wdnMagLoop ten 19 1000000000000000000 false v0 s).2.2 (sinkEmits_le _ _ _ h2)
  exact sinkEmits_trans s _ _ _ 1 zero_le_one hle h2 hwc

/-- The width of `writeNumber` is nonnegative. -/
lemma writeNumberWidth_nonneg (value : ℤ) : 0 ≤ writeNumberWidth value := by
  simp only [writeNumberWidth]
  split_ifs <;> omega

/-- The width of `writeDecimalNumber` is nonnegative. -/
lemma writeDecimalNumberWidth_nonneg (value numDec : ℤ) :
    0 ≤ writeDecimalNumberWidth value numDec := by
  simp only [writeDecimalNumberWidth]
  split_ifs <;> omega

/-- `writeNumber` emits its width, in either mode. -/
lemma writeNumber_emits (value : ℤ) (s : CString) (hle : s.length ≤ s.capacity) :
    SinkEmits s (writeNumberWidth value) (writeNumber value s) := by
  simp only [writeNumber, writeNumberWidth]
  by_cases hneg : value < 0
  · simp only [if_pos hneg]
    have h1 := writeChar_emits '-' s hle
    have h2 := magThenOnes_emits 10 (if value = -(2 ^ 63) then 2 ^ 63 - 1 else -value)
      (writeChar '-' s) (sinkEmits_le _ _ _ h1)
    have htr := sinkEmits_trans s _ _ 1 _ (by omega) hle h1 h2
    exact sinkEmits_congr_k _ _ _ _ (by ring) htr
  · simp only [if_neg hneg]
    have h2 := magThenOnes_emits 10 value s hle
    exact sinkEmits_congr_k _ _ _ _ (by ring) h2

/-- The core of `writeDecimalNumber` after the sign: the integer digits, the
optional point and the fractional digits. -/
lemma writeDecimalTail_emits (ten v0 numDec : ℤ) (s : CString)
    (hle : s.length ≤ s.capacity) :
    SinkEmits s
      (((wdnMagCount ten 19 1000000000000000000 false v0 : ℕ) : ℤ) + 1
        + (if 0 < numDec then
            1 + ((wdnFracCount 19
              ((wdnMagVM ten 19 1000000000000000000 false v0).2 / 10) : ℕ) : ℤ)
          else 0))
      (if 0 < numDec then
        wdnFracLoop 19 ((wdnMagLoop ten 19 1000000000000000000 false v0 s).2.1 / 10)
          ((wdnMagLoop ten 19 1000000000000000000 false v0 s).1 - (wdnMagLoop ten 19 1000000000000000000 false v0 s).1 / (wdnMagLoop ten 19 1000000000000000000 false v0 s).2.1 * (wdnMagLoop ten 19 1000000000000000000 false v0 s).2.1)
          (writeChar '.'
            (writeChar (Char.ofNat (48 + ((wdnMagLoop ten 19 1000000000000000000 false v0 s).1 / (wdnMagLoop ten 19 1000000000000000000 false v0 s).2.1).toNat))
              (wdnMagLoop ten 19 1000000000000000000 false v0 s).2.2))
      else
        writeChar (Char.ofNat (48 + ((wdnMagLoop ten 19 1000000000000000000 false v0 s).1 / (wdnMagLoop ten 19 1000000000000000000 false v0 s).2.1).toNat))
          (wdnMagLoop ten 19 1000000000000000000 false v0 s).2.2) := by
  obtain ⟨m1, m2, -⟩ := wdnMagLoop_emits ten 19 1000000000000000000 false v0 s hle
  have hOnes := magThenOnes_emits ten v0 s hle
  rw [m1, m2] at hOnes ⊢
  by_cases hdec : 0 < numDec
  · rw [if_pos hdec, if_pos hdec]
    have hDot := writeChar_emits '.' _ (sinkEmits_le _ _ _ hOnes)
    have hFrac := wdnFracLoop_emits 19
      ((wdnMagVM ten 19 1000000000000000000 false v0).2 / 10)
      ((wdnMagVM ten 19 1000000000000000000 false v0).1
        - (wdnMagVM ten 19 1000000000000000000 false v0).1
            / (wdnMagVM ten 19 1000000000000000000 false v0).2
            * (wdnMagVM ten 19 1000000000000000000 false v0).2)
      _ (sinkEmits_le _ _ _ hDot)
    have t1 := sinkEmits_trans s _ _ _ 1 zero_le_one hle hOnes hDot
    have t2 := sinkEmits_trans s _ _ _ _ (Int.natCast_nonneg _) hle t1 hFrac
    exact sinkEmits_congr_k _ _ _ _ (by ring) t2
  · rw [if_neg hdec, if_neg hdec]
    exact sinkEmits_congr_k _ _ _ _ (by ring) hOnes

/-- `writeDecimalNumber` emits its width, in either mode. -/
lemma writeDecimalNumber_emits (value numDec : ℤ) (s : CString)
    (hle : s.length ≤ s.capacity) :
    SinkEmits s (writeDecimalNumberWidth value numDec)
      (writeDecimalNumber value numDec s) := by
  simp only [writeDecimalNumber, writeDecimalNumberWidth]
  by_cases hneg : value < 0
  · simp only [if_pos hneg]
    have h1 := writeChar_emits '-' s hle
    have h2 := writeDecimalTail_emits (tenPow numDec.toNat 10)
      (if value = -(2 ^ 63) then 2 ^ 63 - 1 else -value) numDec
      (writeChar '-' s) (sinkEmits_le _ _ _ h1)
    have htr := sinkEmits_trans s _ _ 1 _ (by split_ifs <;> omega) hle h1 h2
    exact sinkEmits_congr_k _ _ _ _ (by ring) htr
  · simp only [if_neg hneg]
    have h2 := writeDecimalTail_emits (tenPow numDec.toNat 10) value numDec s hle
    exact sinkEmits_congr_k _ _ _ _ (by ring) h2

/-- `writeNumberRightJustify` emits the padding it aims for plus its width, in
either mode (on overflow everything saturates identically). -/
lemma writeNumberRightJustify_emits (value endLength : ℤ) (s : CString)
    (hle : s.length ≤ s.capacity) :
    SinkEmits s
      (if 0 < endLength - (s.length + writeNumberWidth value) then
        (endLength - (s.length + writeNumberWidth value)) + writeNumberWidth value
       else writeNumberWidth value)
      (writeNumberRightJustify value endLength s) := by
  have hK := writeNumberWidth_nonneg value
  obtain ⟨e1, e2, e3, e4⟩ := writeNumber_emits value s hle
  simp only [writeNumberRightJustify]
  by_cases hfit : s.length + writeNumberWidth value ≤ s.capacity
  · have hlen1 : (writeNumber value s).length = s.length + writeNumberWidth value := by
      rw [e1]; omega
    have hflag1 : (writeNumber value s).attemptedToWriteMoreThanCapacity
        = s.attemptedToWriteMoreThanCapacity := by
      rw [e2, decide_eq_false (by omega), Bool.or_false]
    by_cases hpad : 0 < endLength - (writeNumber value s).length
    · have hpad2 : 0 < endLength - (s.length + writeNumberWidth value) := by
        rw [← hlen1]; exact hpad
      rw [if_pos hpad, if_pos hpad2]
      have htle : ({ writeNumber value s with length := s.length } : CString).length
          ≤ ({ writeNumber value s with length := s.length } : CString).capacity := by
        show s.length ≤ (writeNumber value s).capacity
        rw [e3]; exact hle
      have hsp := writeSpaces_emits (endLength - (writeNumber value s).length)
        { writeNumber value s with length := s.length } (le_of_lt hpad) htle
      have hwn2 := writeNumber_emits value _ (sinkEmits_le _ _ _ hsp)
      have htr := sinkEmits_trans { writeNumber value s with length := s.length } _ _
        (endLength - (writeNumber value s).length) (writeNumberWidth value) hK htle hsp hwn2
      have hre := sinkEmits_retarget s { writeNumber value s with length := s.length } _
        (endLength - (writeNumber value s).length + writeNumberWidth value)
        rfl hflag1 e3 e4 htr
      exact sinkEmits_congr_k _ _ _ _ (by rw [hlen1]) hre
    · have hpad2 : ¬ 0 < endLength - (s.length + writeNumberWidth value) := by
        rw [← hlen1]; exact hpad
      rw [if_neg hpad, if_neg hpad2]
      exact ⟨e1, e2, e3, e4⟩
  · have hlt : s.capacity < s.length + writeNumberWidth value := by omega
    have hlen1 : (writeNumber value s).length = s.capacity := by rw [e1]; omega
    have hflag1 : (writeNumber value s).attemptedToWriteMoreThanCapacity = true := by
      rw [e2, decide_eq_true hlt, Bool.or_true]
    have hkg : writeNumberWidth value
        ≤ (if 0 < endLength - (s.length + writeNumberWidth value) then
            (endLength - (s.length + writeNumberWidth value)) + writeNumberWidth value
          else writeNumberWidth value) := by
      split_ifs <;> omega
    by_cases hpad : 0 < endLength - (writeNumber value s).length
    · rw [if_pos hpad]
      have hpadc : 0 < endLength - s.capacity := by rw [← hlen1]; exact hpad
      have htle : ({ writeNumber value s with length := s.length } : CString).length
          ≤ ({ writeNumber value s with length := s.length } : CString).capacity := by
        show s.length ≤ (writeNumber value s).capacity
        rw [e3]; exact hle
      have hsp := writeSpaces_emits (endLength - (writeNumber value s).length)
        { writeNumber value s with length := s.length } (le_of_lt hpad) htle
      have hwn2 := writeNumber_emits value _ (sinkEmits_le _ _ _ hsp)
      have htr := sinkEmits_trans { writeNumber value s with length := s.length } _ _
        (endLength - (writeNumber value s).length) (writeNumberWidth value) hK htle hsp hwn2
      obtain ⟨f1, f2, f3, f4⟩ := htr
      refine ⟨?_, ?_, ?_, ?_⟩
      · rw [f1]
        show min (s.length + (endLength - (writeNumber value s).length + writeNumberWidth value))
            (writeNumber value s).capacity = _
        rw [e3, hlen1]
        omega
      · rw [f2]
        show ((writeNumber value s).attemptedToWriteMoreThanCapacity
            || decide ((writeNumber value s).capacity
              < s.length + (endLength - (writeNumber value s).length + writeNumberWidth value))) = _
        rw [e3, hlen1, hflag1, Bool.true_or]
        have hd2 : decide (s.capacity < s.length
            + (if 0 < endLength - (s.length + writeNumberWidth value) then
                (endLength - (s.length + writeNumberWidth value)) + writeNumberWidth value
              else writeNumberWidth value)) = true :=
          decide_eq_true (by omega)
        rw [hd2, Bool.or_true]
      · rw [f3]; exact e3
      · rw [f4]; exact e4
    · rw [if_neg hpad]
      refine ⟨?_, ?_, e3, e4⟩
      · rw [hlen1]
        omega
      · rw [hflag1, decide_eq_true (by omega), Bool.or_true]

/-- `writeNumberZeroPadding` emits the padding it aims for plus its width, in
either mode (on overflow everything saturates identically). -/
lemma writeNumberZeroPadding_emits (value endLength : ℤ) (s : CString)
    (hle : s.length ≤ s.capacity) :
    SinkEmits s
      (if 0 < endLength - (s.length + writeNumberWidth value) then
        (endLength - (s.length + writeNumberWidth value)) + writeNumberWidth value
       else writeNumberWidth value)
      (writeNumberZeroPadding value endLength s) := by
  have hK := writeNumberWidth_nonneg value
  obtain ⟨e1, e2, e3, e4⟩ := writeNumber_emits value s hle
  simp only [writeNumberZeroPadding]
  by_cases hfit : s.length + writeNumberWidth value ≤ s.capacity
  · have hlen1 : (writeNumber value s).length = s.length + writeNumberWidth value := by
      rw [e1]; omega
    have hflag1 : (writeNumber value s).attemptedToWriteMoreThanCapacity
        = s.attemptedToWriteMoreThanCapacity := by
      rw [e2, decide_eq_false (by omega), Bool.or_false]
    by_cases hpad : 0 < endLength - (writeNumber value s).length
    · have hpad2 : 0 < endLength - (s.length + writeNumberWidth value) := by
        rw [← hlen1]; exact hpad
      rw [if_pos hpad, if_pos hpad2]
      have htle : ({ writeNumber value s with length := s.length } : CString).length
          ≤ ({ writeNumber value s with length := s.length } : CString).capacity := by
        show s.length ≤ (writeNumber value s).capacity
        rw [e3]; exact hle
      have hsp := writeZeros_emits (endLength - (writeNumber value s).length)
        { writeNumber value s with length := s.length } (le_of_lt hpad) htle
      have hwn2 := writeNumber_emits value _ (sinkEmits_le _ _ _ hsp)
      have htr := sinkEmits_trans { writeNumber value s with length := s.length } _ _
        (endLength - (writeNumber value s).length) (writeNumberWidth value) hK htle hsp hwn2
      have hre := sinkEmits_retarget s { writeNumber value s with length := s.length } _
        (endLength - (writeNumber value s).length + writeNumberWidth value)
        rfl hflag1 e3 e4 htr
      exact sinkEmits_congr_k _ _ _ _ (by rw [hlen1]) hre
    · have hpad2 : ¬ 0 < endLength - (s.length + writeNumberWidth value) := by
        rw [← hlen1]; exact hpad
      rw [if_neg hpad, if_neg hpad2]
      exact ⟨e1, e2, e3, e4⟩
  · have hlt : s.capacity < s.length + writeNumberWidth value := by omega
    have hlen1 : (writeNumber value s).length = s.capacity := by rw [e1]; omega
    have hflag1 : (writeNumber value s).attemptedToWriteMoreThanCapacity = true := by
      rw [e2, decide_eq_true hlt, Bool.or_true]
    have hkg : writeNumberWidth value
        ≤ (if 0 < endLength - (s.length + writeNumberWidth value) then
            (endLength - (s.length + writeNumberWidth value)) + writeNumberWidth value
          else writeNumberWidth value) := by
      split_ifs <;> omega
    by_cases hpad : 0 < endLength - (writeNumber value s).length
    · rw [if_pos hpad]
      have hpadc : 0 < endLength - s.capacity := by rw [← hlen1]; exact hpad
      have htle : ({ writeNumber value s with length := s.length } : CString).length
          ≤ ({ writeNumber value s with length := s.length } : CString).capacity := by
        show s.length ≤ (writeNumber value s).capacity
        rw [e3]; exact hle
      have hsp := writeZeros_emits (endLength - (writeNumber value s).length)
        { writeNumber value s with length := s.length } (le_of_lt hpad) htle
      have hwn2 := writeNumber_emits value _ (sinkEmits_le _ _ _ hsp)
      have htr := sinkEmits_trans { writeNumber value s with length := s.length } _ _
        (endLength - (writeNumber value s).length) (writeNumberWidth value) hK htle hsp hwn2
      obtain ⟨f1, f2, f3, f4⟩ := htr
      refine ⟨?_, ?_, ?_, ?_⟩
      · rw [f1]
        show min (s.length + (endLength - (writeNumber value s).length + writeNumberWidth value))
            (writeNumber value s).capacity = _
        rw [e3, hlen1]
        omega
      · rw [f2]
        show ((writeNumber value s).attemptedToWriteMoreThanCapacity
            || decide ((writeNumber value s).capacity
              < s.length + (endLength - (writeNumber value s).length + writeNumberWidth value))) = _
        rw [e3, hlen1, hflag1, Bool.true_or]
        have hd2 : decide (s.capacity < s.length
            + (if 0 < endLength - (s.length + writeNumberWidth value) then
                (endLength - (s.length + writeNumberWidth value)) + writeNumberWidth value
              else writeNumberWidth value)) = true :=
          decide_eq_true (by omega)
        rw [hd2, Bool.or_true]
      · rw [f3]; exact e3
      · rw [f4]; exact e4
    · rw [if_neg hpad]
      refine ⟨?_, ?_, e3, e4⟩
      · rw [hlen1]
        omega
      · rw [hflag1, decide_eq_true (by omega), Bool.or_true]

/-- `writeDecimalNumberRightJustify` emits the padding it aims for plus its
width when padding is needed, and twice its width otherwise (the else branch
renders the number again without rewinding); in either mode, saturating
identically on overflow. -/
lemma writeDecimalNumberRightJustify_emits (value numDec endLength : ℤ) (s : CString)
    (hle : s.length ≤ s.capacity) :
    SinkEmits s
      (if 0 < endLength - (s.length + writeDecimalNumberWidth value numDec) then
        (endLength - (s.length + writeDecimalNumberWidth value numDec)) + writeDecimalNumberWidth value numDec
       else writeDecimalNumberWidth value numDec + writeDecimalNumberWidth value numDec)
      (writeDecimalNumberRightJustify value numDec endLength s) := by
  have hK := writeDecimalNumberWidth_nonneg value numDec
  obtain ⟨e1, e2, e3, e4⟩ := writeDecimalNumber_emits value numDec s hle
  have hle1 : (writeDecimalNumber value numDec s).length ≤ (writeDecimalNumber value numDec s).capacity := by
    rw [e1, e3]; exact min_le_right _ _
  simp only [writeDecimalNumberRightJustify]
  by_cases hfit : s.length + writeDecimalNumberWidth value numDec ≤ s.capacity
  · have hlen1 : (writeDecimalNumber value numDec s).length = s.length + writeDecimalNumberWidth value numDec := by
      rw [e1]; omega
    have hflag1 : (writeDecimalNumber value numDec s).attemptedToWriteMoreThanCapacity
        = s.attemptedToWriteMoreThanCapacity := by
      rw [e2, decide_eq_false (by omega), Bool.or_false]
    by_cases hpad : 0 < endLength - (writeDecimalNumber value numDec s).length
    · have hpad2 : 0 < endLength - (s.length + writeDecimalNumberWidth value numDec) := by
        rw [← hlen1]; exact hpad
      rw [if_pos hpad, if_pos hpad2]
      have htle : ({ writeDecimalNumber value numDec s with length := s.length } : CString).length
          ≤ ({ writeDecimalNumber value numDec s with length := s.length } : CString).capacity := by
        show s.length ≤ (writeDecimalNumber value numDec s).capacity
        rw [e3]; exact hle
      have hsp := writeSpaces_emits (endLength - (writeDecimalNumber value numDec s).length)
        { writeDecimalNumber value numDec s with length := s.length } (le_of_lt hpad) htle
      have hwn2 := writeDecimalNumber_emits value numDec _ (sinkEmits_le _ _ _ hsp)
      have htr := sinkEmits_trans { writeDecimalNumber value numDec s with length := s.length } _ _
        (endLength - (writeDecimalNumber value numDec s).length) (writeDecimalNumberWidth value numDec) hK htle hsp hwn2
      have hre := sinkEmits_retarget s { writeDecimalNumber value numDec s with length := s.length } _
        (endLength - (writeDecimalNumber value numDec s).length + writeDecimalNumberWidth value numDec)
        rfl hflag1 e3 e4 htr
      exact sinkEmits_congr_k _ _ _ _ (by rw [hlen1]) hre
    · have hpad2 : ¬ 0 < endLength - (s.length + writeDecimalNumberWidth value numDec) := by
        rw [← hlen1]; exact hpad
      rw [if_neg hpad, if_neg hpad2]
      have h2 := writeDecimalNumber_emits value numDec (writeDecimalNumber value numDec s) hle1
      exact sinkEmits_trans s _ _ (writeDecimalNumberWidth value numDec) (writeDecimalNumberWidth value numDec) hK hle ⟨e1, e2, e3, e4⟩ h2
  · have hlt : s.capacity < s.length + writeDecimalNumberWidth value numDec := by omega
    have hlen1 : (writeDecimalNumber value numDec s).length = s.capacity := by rw [e1]; omega
    have hflag1 : (writeDecimalNumber value numDec s).attemptedToWriteMoreThanCapacity = true := by
      rw [e2, decide_eq_true hlt, Bool.or_true]
    have hkg : writeDecimalNumberWidth value numDec
        ≤ (if 0 < endLength - (s.length + writeDecimalNumberWidth value numDec) then
            (endLength - (s.length + writeDecimalNumberWidth value numDec)) + writeDecimalNumberWidth value numDec
          else writeDecimalNumberWidth value numDec + writeDecimalNumberWidth value numDec) := by
      split_ifs <;> omega
    by_cases hpad : 0 < endLength - (writeDecimalNumber value numDec s).length
    · rw [if_pos hpad]
      have hpadc : 0 < endLength - s.capacity := by rw [← hlen1]; exact hpad
      have htle : ({ writeDecimalNumber value numDec s with length := s.length } : CString).length
          ≤ ({ writeDecimalNumber value numDec s with length := s.length } : CString).capacity := by
        show s.length ≤ (writeDecimalNumber value numDec s).capacity
        rw [e3]; exact hle
      have hsp := writeSpaces_emits (endLength - (writeDecimalNumber value numDec s).length)
        { writeDecimalNumber value numDec s with length := s.length } (le_of_lt hpad) htle
      have hwn2 := writeDecimalNumber_emits value numDec _ (sinkEmits_le _ _ _ hsp)
      have htr := sinkEmits_trans { writeDecimalNumber value numDec s with length := s.length } _ _
        (endLength - (writeDecimalNumber value numDec s).length) (writeDecimalNumberWidth value numDec) hK htle hsp hwn2
      obtain ⟨f1, f2, f3, f4⟩ := htr
      refine ⟨?_, ?_, ?_, ?_⟩
      · rw [f1]
        show min (s.length + (endLength - (writeDecimalNumber value numDec s).length + writeDecimalNumberWidth value numDec))
            (writeDecimalNumber value numDec s).capacity = _
        rw [e3, hlen1]
        omega
      · rw [f2]
        show ((writeDecimalNumber value numDec s).attemptedToWriteMoreThanCapacity
            || decide ((writeDecimalNumber value numDec s).capacity
              < s.length + (endLength - (writeDecimalNumber value numDec s).length + writeDecimalNumberWidth value numDec))) = _
        rw [e3, hlen1, hflag1, Bool.true_or]
        have hd2 : decide (s.capacity < s.length
            + (if 0 < endLength - (s.length + writeDecimalNumberWidth value numDec) then
                (endLength - (s.length + writeDecimalNumberWidth value numDec)) + writeDecimalNumberWidth value numDec
              else writeDecimalNumberWidth value numDec + writeDecimalNumberWidth value numDec)) = true :=
          decide_eq_true (by omega)
        rw [hd2, Bool.or_true]
      · rw [f3]; exact e3
      · rw [f4]; exact e4
    · rw [if_neg hpad]
      have h2 := writeDecimalNumber_emits value numDec (writeDecimalNumber value numDec s) hle1
      have htr := sinkEmits_trans s _ _ (writeDecimalNumberWidth value numDec) (writeDecimalNumberWidth value numDec) hK hle ⟨e1, e2, e3, e4⟩ h2
      obtain ⟨f1, f2, f3, f4⟩ := htr
      refine ⟨?_, ?_, f3, f4⟩
      · rw [f1]
        omega
      · rw [f2]
        congr 1
        rw [decide_eq_decide]
        omega

/-- Every sink operation whose space/zero count is nonnegative makes the
transition of its request, in either mode. -/
lemma runSinkOp_spec (op : SinkOp) (s : CString)
    (hnn : sinkOpCountNonneg op = true) (hle : s.length ≤ s.capacity) :
    SinkEmits s (sinkOpRequest op s.length) (runSinkOp op s) := by
  cases op with
  | wChar c => exact writeChar_emits c s hle
  | wSpaces n => exact writeSpaces_emits n s (of_decide_eq_true hnn) hle
  | wZeros n => exact writeZeros_emits n s (of_decide_eq_true hnn) hle
  | wNulStr cs => exact writeNulTerminatedString_emits cs s hle
  | wStrNoNul cs => exact writeStringNoNullTerminator_emits cs s hle
  | wNulStrRJ cs endLength =>
    exact writeNulTerminatedStringRightJustify_emits cs endLength s hle
  | wNumber value => exact writeNumber_emits value s hle
  | wNumberRJ value endLength => exact writeNumberRightJustify_emits value endLength s hle
  | wNumberZP value endLength => exact writeNumberZeroPadding_emits value endLength s hle
  | wDecimal value numDec => exact writeDecimalNumber_emits value numDec s hle
  | wDecimalRJ value numDec endLength =>
    exact writeDecimalNumberRightJustify_emits value numDec endLength s hle

/-- Over a whole sequence, a sink in either mode reaches the predicted
length, ORs the overflow fold into its flag, keeps its capacity and mode, and
stays within capacity. -/
lemma runSinkOps_spec (ops : List SinkOp) (s : CString)
    (hnn : ∀ op ∈ ops, sinkOpCountNonneg op = true)
    (hle : s.length ≤ s.capacity) :
    (runSinkOps ops s).length = predictedLength s.capacity ops s.length
    ∧ (runSinkOps ops s).attemptedToWriteMoreThanCapacity
        = (s.attemptedToWriteMoreThanCapacity || anyOverflow s.capacity ops s.length)
    ∧ (runSinkOps ops s).capacity = s.capacity
    ∧ (runSinkOps ops s).bytes.isSome = s.bytes.isSome
    ∧ (runSinkOps ops s).length ≤ s.capacity := by
  induction ops generalizing s with
  | nil =>
    refine ⟨rfl, ?_, rfl, rfl, hle⟩
    simp [runSinkOps, anyOverflow]
  | cons op rest ih =>
    obtain ⟨p1, p2, p3, p4⟩ := runSinkOp_spec op s (hnn op (by simp)) hle
    have hle1 : (runSinkOp op s).length ≤ (runSinkOp op s).capacity := by
      rw [p1, p3]; exact min_le_right _ _
    obtain ⟨q1, q2, q3, q4, q5⟩ := ih (runSinkOp op s)
      (fun o ho => hnn o (by simp [ho])) hle1
    have hstep : runSinkOps (op :: rest) s = runSinkOps rest (runSinkOp op s) := rfl
    rw [hstep]
    have hq5 : (runSinkOps rest (runSinkOp op s)).length ≤ s.capacity := by
      rw [← p3]; exact q5
    refine ⟨?_, ?_, by rw [q3, p3], by rw [q4, p4], hq5⟩
    · rw [q1, p1, p3, predictedLength]
    · rw [q2, p2, p1, p3, anyOverflow, Bool.or_assoc]

set_option maxRecDepth 20000 in
/-- Sanity anchor: a mixed run of seven different writers lands on the same
length and flag in write mode and count-only mode. -/
example :
    (runSinkOps
      [SinkOp.wChar 'a', SinkOp.wNumber (-12), SinkOp.wNumberRJ 7 5,
        SinkOp.wDecimal 5 2, SinkOp.wZeros 2, SinkOp.wStrNoNul ['x', 'y'],
        SinkOp.wNumberZP 3 4]
      (mkCString (some (fun _ => ' ')) 30)).length
      = (runSinkOps
        [SinkOp.wChar 'a', SinkOp.wNumber (-12), SinkOp.wNumberRJ 7 5,
          SinkOp.wDecimal 5 2, SinkOp.wZeros 2, SinkOp.wStrNoNul ['x', 'y'],
          SinkOp.wNumberZP 3 4]
        (mkCString none 30)).length := by decide

set_option maxRecDepth 20000 in
/-- Sanity anchor: `writeNumber (-12)` renders "-12". -/
example :
    (writeNumber (-12) (mkCString (some (fun _ => '?')) 10)).length = 3
    ∧ bufAt (writeNumber (-12) (mkCString (some (fun _ => '?')) 10)) 0 = '-'
    ∧ bufAt (writeNumber (-12) (mkCString (some (fun _ => '?')) 10)) 1 = '1'
    ∧ bufAt (writeNumber (-12) (mkCString (some (fun _ => '?')) 10)) 2 = '2' := by
  decide

set_option maxRecDepth 20000 in
/-- Sanity anchor: `writeNumberRightJustify 7 5` renders four spaces then
the digit. -/
example :
    (writeNumberRightJustify 7 5 (mkCString (some (fun _ => '?')) 10)).length = 5
    ∧ bufAt (writeNumberRightJustify 7 5 (mkCString (some (fun _ => '?')) 10)) 3 = ' '
    ∧ bufAt (writeNumberRightJustify 7 5 (mkCString (some (fun _ => '?')) 10)) 4 = '7' := by
  decide

set_option maxRecDepth 20000 in
/-- C6 counterexample: write mode and count-only mode do NOT agree for every
input. With capacity `-1`, writing the one-character string "a" leaves length
0 in write mode but clamps length to `-1` in count-only mode; and even at the
nonnegative capacity 5, `writeSpaces (-3)` leaves length 0 in write mode but
length `-3` in count-only mode. -/
theorem sink_modes_counterexample :
    ((runSinkOps [SinkOp.wNulStr ['a']]
        (mkCString (some (fun _ => ' ')) (-1))).length = 0
      ∧ (runSinkOps [SinkOp.wNulStr ['a']] (mkCString none (-1))).length = -1)
    ∧ ((runSinkOps [SinkOp.wSpaces (-3)]
        (mkCString (some (fun _ => ' ')) 5)).length = 0
      ∧ (runSinkOps [SinkOp.wSpaces (-3)] (mkCString none 5)).length = -3) := by
  exact ⟨⟨by decide, by decide⟩, ⟨by decide, by decide⟩⟩

/-- C6 (amended): for every sequence of text-sink write operations (all
eleven writers of String.c) in which every `writeSpaces`/`writeZeros` count
is nonnegative, and every NONNEGATIVE capacity, running the sequence on a
sink with a destination buffer (write mode) and on one without (count-only
mode) yields the same final length and the same overflow flag; in both modes
the length saturates at the capacity, and the flag ends set exactly when some
operation of the sequence requests more characters than the capacity leaves
at its point in the sequence. (For a negative capacity, or a negative
space/zero count, the two modes diverge.) -/
theorem sink_modes_agree (ops : List SinkOp) (capacity : ℤ) (buf : ℤ → Char)
    (hcap : 0 ≤ capacity)
    (hnn : ∀ op ∈ ops, sinkOpCountNonneg op = true) :
    (runSinkOps ops (mkCString (some buf) capacity)).length
      = (runSinkOps ops (mkCString none capacity)).length
    ∧ (runSinkOps ops (mkCString (some buf) capacity)).attemptedToWriteMoreThanCapacity
      = (runSinkOps ops (mkCString none capacity)).attemptedToWriteMoreThanCapacity
    ∧ (runSinkOps ops (mkCString (some buf) capacity)).length ≤ capacity
    ∧ (runSinkOps ops (mkCString (some buf) capacity)).attemptedToWriteMoreThanCapacity
      = anyOverflow capacity ops 0 := by
  obtain ⟨w1, w2, -, -, w5⟩ := runSinkOps_spec ops (mkCString (some buf) capacity) hnn hcap
  obtain ⟨c1, c2, -, -, -⟩ := runSinkOps_spec ops (mkCString none capacity) hnn hcap
  refine ⟨?_, ?_, w5, ?_⟩
  · rw [w1, c1]
    rfl
  · rw [w2, c2]
    rfl
  · rw [w2]
    rfl

set_option maxRecDepth 20000 in
/-- Witness for C6 (amended) at a concrete mixed input: capacity 6; a
character, a two-digit number, a space, a right-justified string and the
buggy decimal right-justify, overflowing at the end. -/
theorem sink_modes_agree_witness :
    (0 ≤ (6 : ℤ))
    ∧ ((runSinkOps
        [SinkOp.wChar 'a', SinkOp.wNumber 12, SinkOp.wSpaces 1,
          SinkOp.wNulStrRJ ['b'] 6, SinkOp.wDecimalRJ 5 0 0]
        (mkCString (some (fun _ => ' ')) 6)).length
      = (runSinkOps
          [SinkOp.wChar 'a', SinkOp.wNumber 12, SinkOp.wSpaces 1,
            SinkOp.wNulStrRJ ['b'] 6, SinkOp.wDecimalRJ 5 0 0]
          (mkCString none 6)).length) :=
  ⟨by decide, (sink_modes_agree
    [SinkOp.wChar 'a', SinkOp.wNumber 12, SinkOp.wSpaces 1,
      SinkOp.wNulStrRJ ['b'] 6, SinkOp.wDecimalRJ 5 0 0]
    6 (fun _ => ' ') (by decide) (by decide)).1⟩

/-! ## C9: hstack -/

/-- Reading a cell after a `memcpy`: inside the copied window the source
shows through, outside it the old destination. -/
lemma memcpyB_get (dst : Buf) (dOff : ℤ) (src : Buf) (sOff : ℤ) (n : ℕ) (k : ℤ) :
    memcpyB dst dOff src sOff n k =
      if dOff ≤ k ∧ k < dOff + (n : ℤ) then src (sOff + (k - dOff)) else dst k := by
  induction n with
  | zero =>
    simp only [memcpyB, Int.natCast_zero, add_zero]
    rw [if_neg (by omega)]
  | succ n ih =>
    simp only [memcpyB, writeCell]
    by_cases hk : k = dOff + (n : ℤ)
    · rw [if_pos hk, if_pos (by push_cast; omega)]
      congr 1
      omega
    · rw [if_neg hk, ih]
      by_cases h2 : dOff ≤ k ∧ k < dOff + (n : ℤ)
      · rw [if_pos h2, if_pos (by push_cast; omega)]
      · rw [if_neg h2, if_neg (by push_cast; omega)]

/-- Reading a cell of the destination after the `hstack` row loop: row `i`,
column `j` of the destination is column `j` of row `i` of the first matrix
when `j < e0`, and column `j - e0` of row `i` of the second matrix
otherwise. -/
lemma hstackLoop_get (m1b m2b : Buf) (e0 e1 : ℤ) (he0 : 0 ≤ e0) (he1 : 0 ≤ e1)
    (n : ℕ) (d : Buf) (i j : ℤ) (hi0 : 0 ≤ i) (hin : i < (n : ℤ)) (hj0 : 0 ≤ j)
    (hj : j < e0 + e1) :
    hstackLoop m1b m2b e0 e1 (e0 + e1) n d (i * (e0 + e1) + j) =
      if j < e0 then m1b (i * e0 + j) else m2b (i * e1 + (j - e0)) := by
  induction n generalizing d with
  | zero => omega
  | succ n ih =>
    simp only [hstackLoop]
    rw [memcpyB_get, memcpyB_get, Int.toNat_of_nonneg he0, Int.toNat_of_nonneg he1]
    by_cases hrow : i = (n : ℤ)
    · subst hrow
      by_cases hje : j < e0
      · rw [if_neg (by rintro ⟨hcon, -⟩; omega), if_pos (by constructor <;> omega),
          if_pos hje]
        congr 1
        ring_nf
      · rw [if_pos (by constructor <;> omega), if_neg hje]
        congr 1
        ring_nf
    · have hin2 : i < (n : ℤ) := by push_cast at hin; omega
      have hring : i * (e0 + e1) + (e0 + e1) = (i + 1) * (e0 + e1) := by ring
      have hmul : (i + 1) * (e0 + e1) ≤ (n : ℤ) * (e0 + e1) :=
        mul_le_mul_of_nonneg_right (by omega) (by omega)
      have hlt : i * (e0 + e1) + j < (n : ℤ) * (e0 + e1) := by linarith
      rw [if_neg (by rintro ⟨hcon, -⟩; linarith), if_neg (by rintro ⟨hcon, -⟩; linarith)]
      exact ih d hin2

/-- C9: when the computed combined shape is degenerate (row count < 1 or
total column count < 1), `hstack` sets both destination shape fields to the
invalid-shape sentinel `-1` and writes no element; otherwise it writes shape
`r x (c1 + c2)` and every destination row is the concatenation of the
corresponding rows of the two inputs. -/
theorem hstack_shape_and_content (m1b m2b dest : Buf)
    (meta1 meta2 destMeta : MatrixMetadata)
    (hc1 : 0 ≤ meta1.num_cols) (hc2 : 0 ≤ meta2.num_cols) :
    (meta1.num_rows < 1 ∨ meta1.num_cols + meta2.num_cols < 1 →
      (hstack m1b m2b dest meta1 meta2 destMeta).destMeta.num_rows = -1
      ∧ (hstack m1b m2b dest meta1 meta2 destMeta).destMeta.num_cols = -1
      ∧ (hstack m1b m2b dest meta1 meta2 destMeta).dest = dest)
    ∧ (¬ (meta1.num_rows < 1 ∨ meta1.num_cols + meta2.num_cols < 1) →
      (hstack m1b m2b dest meta1 meta2 destMeta).destMeta.num_rows = meta1.num_rows
      ∧ (hstack m1b m2b dest meta1 meta2 destMeta).destMeta.num_cols
          = meta1.num_cols + meta2.num_cols
      ∧ ∀ i j : ℤ, 0 ≤ i → i < meta1.num_rows → 0 ≤ j →
          j < meta1.num_cols + meta2.num_cols →
          (hstack m1b m2b dest meta1 meta2 destMeta).dest
              (i * (meta1.num_cols + meta2.num_cols) + j)
            = if j < meta1.num_cols then m1b (i * meta1.num_cols + j)
              else m2b (i * meta2.num_cols + (j - meta1.num_cols))) := by
  constructor
  · intro hdeg
    unfold hstack
    dsimp only
    rw [if_pos hdeg]
    exact ⟨rfl, rfl, rfl⟩
  · intro hok
    unfold hstack
    dsimp only
    rw [if_neg hok]
    refine ⟨rfl, rfl, ?_⟩
    intro i j hi0 hi hj0 hj
    exact hstackLoop_get m1b m2b meta1.num_cols meta2.num_cols hc1 hc2
      meta1.num_rows.toNat dest i j hi0 (by omega) hj0 hj

/-- A 2x2 matrix with entries 1..4 (row-major). -/
def m1w : Buf := fun k => k + 1

/-- A 2x3 matrix with entries 10..15 (row-major). -/
def m2w : Buf := fun k => 10 + k

/-- Metadata of the 2x2 input. -/
def meta1w : MatrixMetadata :=
  { num_rows := 2, num_cols := 2, augmented_matrix_rank := 0, matrix_rank := 0,
    is_consistent := 0, matrix_determinant := 0 }

/-- Metadata of the 2x3 input. -/
def meta2w : MatrixMetadata :=
  { num_rows := 2, num_cols := 3, augmented_matrix_rank := 0, matrix_rank := 0,
    is_consistent := 0, matrix_determinant := 0 }

/-- Blank destination metadata. -/
def dmw : MatrixMetadata :=
  { num_rows := 0, num_cols := 0, augmented_matrix_rank := 0, matrix_rank := 0,
    is_consistent := 0, matrix_determinant := 0 }

/-- Witness for C9: stacking the 2x2 and 2x3 matrices gives destination shape
2 x 5, and destination cell (1,3) (flat index 8) holds cell (1,1) of the
second input, i.e. 14. -/
theorem hstack_witness :
    (hstack m1w m2w (fun _ => 0) meta1w meta2w dmw).destMeta.num_rows = 2
    ∧ (hstack m1w m2w (fun _ => 0) meta1w meta2w dmw).destMeta.num_cols = 5
    ∧ (hstack m1w m2w (fun _ => 0) meta1w meta2w dmw).dest 8 = 14 := by
  have h := hstack_shape_and_content m1w m2w (fun _ => 0) meta1w meta2w dmw
    (by decide) (by decide)
  have h2 := h.2 (by decide)
  refine ⟨h2.1, h2.2.1, ?_⟩
  have h3 := h2.2.2 1 3 (by decide) (by decide) (by decide) (by decide)
  rw [show ((1 : ℤ) * (meta1w.num_cols + meta2w.num_cols) + 3) = 8 by decide] at h3
  rw [h3, if_neg (by decide)]
  show m2w (1 * 3 + (3 - 2)) = 14
  norm_num [m2w]

/-! ## C10: the pending row-swap flag of the forward phase -/

/-- A forward inner-loop iteration on a zero entry only prints the matrix. -/
lemma fwdRowStep_skip (nc i row : ℤ) (s : FwdSt) (piv : ℚ)
    (h : s.A (row * nc + i) = 0) :
    fwdRowStep nc i row (s, piv) = ({ s with log := s.log ++ [LogEntry.snapshot] }, piv) := by
  simp only [fwdRowStep]
  rw [if_pos h]

/-- A forward inner-loop iteration at a nonzero entry with the pending-swap
flag raised performs the swap: the flag clears, the multiplier flips, the
matrix rows swap and the `[SWP]` line is logged. -/
lemma fwdRowStep_swap (nc i row : ℤ) (s : FwdSt) (piv : ℚ)
    (hflag : s.flag = 1) (hnz : s.A (row * nc + i) ≠ 0) :
    fwdRowStep nc i row (s, piv) =
      ({ A := swap_rows s.A row i nc, flag := 0, mult := s.mult * (-1), prod := s.prod,
         log := s.log ++ [LogEntry.swp (row + 1) (i + 1),
           LogEntry.newPivot (swap_rows s.A row i nc (i * nc + i)), LogEntry.snapshot] },
       swap_rows s.A row i nc (i * nc + i)) := by
  simp only [fwdRowStep]
  rw [if_neg hnz, if_pos hflag]
  simp

/-- If every entry of column `i` scanned by the inner loop is zero, the loop
leaves the matrix, the flag, the multiplier and the pivot untouched and only
prints one matrix snapshot per row. -/
lemma fwdInner_all_zero (nc i : ℤ) (n : ℕ) (r : ℤ) (s : FwdSt) (piv : ℚ)
    (h : ∀ row : ℤ, r ≤ row → row < r + (n : ℤ) → s.A (row * nc + i) = 0) :
    fwdInner nc i n r (s, piv)
      = ({ s with log := s.log ++ List.replicate n LogEntry.snapshot }, piv) := by
  induction n generalizing r s with
  | zero => simp [fwdInner]
  | succ n ih =>
    rw [fwdInner, fwdRowStep_skip nc i r s piv (h r le_rfl (by push_cast; omega))]
    rw [ih (r + 1) { s with log := s.log ++ [LogEntry.snapshot] }
      (fun row h1 h2 => h row (by omega) (by push_cast at h2 ⊢; omega))]
    simp [List.replicate_succ]

/-- With the flag down, the forward inner loop never flips the multiplier,
never raises the flag, and only appends to the log. -/
lemma fwdInner_flag0 (nc i : ℤ) (n : ℕ) (r : ℤ) (sp : FwdSt × ℚ) (h : sp.1.flag = 0) :
    (fwdInner nc i n r sp).1.flag = 0
    ∧ (fwdInner nc i n r sp).1.mult = sp.1.mult
    ∧ ∀ e ∈ sp.1.log, e ∈ (fwdInner nc i n r sp).1.log := by
  induction n generalizing r sp with
  | zero => exact ⟨h, rfl, fun e he => he⟩
  | succ n ih =>
    rw [fwdInner]
    have hstep : (fwdRowStep nc i r sp).1.flag = 0
        ∧ (fwdRowStep nc i r sp).1.mult = sp.1.mult
        ∧ ∀ e ∈ sp.1.log, e ∈ (fwdRowStep nc i r sp).1.log := by
      simp only [fwdRowStep]
      by_cases hv : sp.1.A (r * nc + i) = 0
      · rw [if_pos hv]
        exact ⟨h, rfl, fun e he => by simp [he]⟩
      · rw [if_neg hv]
        rw [if_neg (by omega : ¬ sp.1.flag = 1)]
        by_cases hneg : sp.1.A (r * nc + i) < 0
        · rw [if_pos hneg]
          exact ⟨h, rfl, fun e he => by simp [he]⟩
        · rw [if_neg hneg]
          exact ⟨h, rfl, fun e he => by simp [he]⟩
    obtain ⟨f1, f2, f3⟩ := hstep
    obtain ⟨g1, g2, g3⟩ := ih (r + 1) (fwdRowStep nc i r sp) f1
    exact ⟨g1, by rw [g2, f2], fun e he => g3 e (f3 e he)⟩

/-- With the flag raised on entry, the forward inner loop performs a `[SWP]`
swap at the first nonzero entry of the scanned column: the multiplier flips
exactly once and the flag ends cleared. -/
lemma fwdInner_swap (nc i : ℤ) (n : ℕ) (r0 : ℤ) (s : FwdSt) (piv : ℚ) (r : ℤ)
    (hflag : s.flag = 1)
    (hr1 : r0 ≤ r) (hr2 : r < r0 + (n : ℤ))
    (hzero : ∀ row : ℤ, r0 ≤ row → row < r → s.A (row * nc + i) = 0)
    (hnz : s.A (r * nc + i) ≠ 0) :
    (fwdInner nc i n r0 (s, piv)).1.mult = s.mult * (-1)
    ∧ LogEntry.swp (r + 1) (i + 1) ∈ (fwdInner nc i n r0 (s, piv)).1.log
    ∧ (fwdInner nc i n r0 (s, piv)).1.flag = 0 := by
  induction n generalizing r0 s piv with
  | zero =>
    exfalso
    push_cast at hr2
    omega
  | succ n ih =>
    rw [fwdInner]
    by_cases hfirst : r = r0
    · subst hfirst
      rw [fwdRowStep_swap nc i r s piv hflag hnz]
      obtain ⟨g1, g2, g3⟩ := fwdInner_flag0 nc i n (r + 1)
        ({ A := swap_rows s.A r i nc, flag := 0, mult := s.mult * (-1), prod := s.prod,
           log := s.log ++ [LogEntry.swp (r + 1) (i + 1),
             LogEntry.newPivot (swap_rows s.A r i nc (i * nc + i)), LogEntry.snapshot] },
         swap_rows s.A r i nc (i * nc + i)) rfl
      exact ⟨g2, g3 _ (by simp), g1⟩
    · rw [fwdRowStep_skip nc i r0 s piv (hzero r0 le_rfl (by omega))]
      exact ih (r0 + 1) { s with log := s.log ++ [LogEntry.snapshot] } piv hflag
        (by omega) (by push_cast at hr2 ⊢; omega)
        (fun row h1 h2 => hzero row (by omega) h2) hnz

/-- A forward diagonal step whose pivot is zero and whose column has no
nonzero entry below leaves the matrix and multiplier alone and exits with the
pending-swap flag raised (the flag is cleared only by an actual swap). -/
lemma fwdStep_all_zero_below (nc nrows i : ℤ) (s : FwdSt)
    (hpiv : s.A (i * nc + i) = 0)
    (hbelow : ∀ row : ℤ, i + 1 ≤ row → row < nrows → s.A (row * nc + i) = 0) :
    fwdStep nc nrows i s =
      { A := s.A, flag := 1, mult := s.mult, prod := s.prod * s.A (i * nc + i),
        log := s.log ++ List.replicate (nrows - (i + 1)).toNat LogEntry.snapshot } := by
  simp only [fwdStep]
  rw [if_pos hpiv]
  rw [fwdInner_all_zero nc i ((nrows - (i + 1)).toNat) (i + 1) { s with flag := 1 }
    (s.A (i * nc + i)) (fun row h1 h2 => hbelow row h1 (by omega))]

/-- A forward diagonal step entered with the pending-swap flag raised
performs a `[SWP]` swap at the first nonzero below-diagonal entry of its
column, whatever the pivot value: the multiplier flips and the flag ends
cleared. -/
lemma fwdStep_pending_swap (nc nrows i : ℤ) (s : FwdSt) (r : ℤ)
    (hflag : s.flag = 1) (hr1 : i + 1 ≤ r) (hr2 : r < nrows)
    (hzero : ∀ row : ℤ, i + 1 ≤ row → row < r → s.A (row * nc + i) = 0)
    (hnz : s.A (r * nc + i) ≠ 0) :
    (fwdStep nc nrows i s).mult = s.mult * (-1)
    ∧ LogEntry.swp (r + 1) (i + 1) ∈ (fwdStep nc nrows i s).log
    ∧ (fwdStep nc nrows i s).flag = 0 := by
  simp only [fwdStep]
  by_cases hp : s.A (i * nc + i) = 0
  · rw [if_pos hp]
    exact fwdInner_swap nc i ((nrows - (i + 1)).toNat) (i + 1) { s with flag := 1 }
      (s.A (i * nc + i)) r rfl hr1 (by omega) hzero hnz
  · rw [if_neg hp]
    exact fwdInner_swap nc i ((nrows - (i + 1)).toNat) (i + 1) s
      (s.A (i * nc + i)) r hflag hr1 (by omega) hzero hnz

/-- C10: in the forward phase, when the pivot at diagonal index `i` reads
exactly zero and column `i` has only zero entries below it (or no rows
below), the pending-swap flag raised at step `i` survives — nothing clears it
but an actual swap — so step `i` leaves the matrix and multiplier untouched
with the flag still set; at step `i+1`, even though the pivot at
`[i+1][i+1]` is nonzero, a `[SWP]` row swap is performed at the first nonzero
below-diagonal entry of column `i+1` (row `r`), flipping the sign of the swap
multiplier and clearing the flag. -/
theorem pending_swap_flag_carries_over (nc nrows i r : ℤ) (s : FwdSt)
    (hpiv : s.A (i * nc + i) = 0)
    (hbelow : ∀ row : ℤ, i + 1 ≤ row → row < nrows → s.A (row * nc + i) = 0)
    (_hpiv2 : s.A ((i + 1) * nc + (i + 1)) ≠ 0)
    (hr1 : i + 2 ≤ r) (hr2 : r < nrows)
    (hzero2 : ∀ row : ℤ, i + 2 ≤ row → row < r → s.A (row * nc + (i + 1)) = 0)
    (hnz : s.A (r * nc + (i + 1)) ≠ 0) :
    (fwdStep nc nrows i s).flag = 1
    ∧ (fwdStep nc nrows i s).A = s.A
    ∧ (fwdStep nc nrows i s).mult = s.mult
    ∧ (fwdStep nc nrows (i + 1) (fwdStep nc nrows i s)).mult = s.mult * (-1)
    ∧ LogEntry.swp (r + 1) (i + 1 + 1)
        ∈ (fwdStep nc nrows (i + 1) (fwdStep nc nrows i s)).log
    ∧ (fwdStep nc nrows (i + 1) (fwdStep nc nrows i s)).flag = 0 := by
  have hstep1 := fwdStep_all_zero_below nc nrows i s hpiv hbelow
  rw [hstep1]
  have hstep2 := fwdStep_pending_swap nc nrows (i + 1)
    { A := s.A, flag := 1, mult := s.mult, prod := s.prod * s.A (i * nc + i),
      log := s.log ++ List.replicate (nrows - (i + 1)).toNat LogEntry.snapshot }
    r rfl (by omega) hr2 (fun row h1 h2 => hzero2 row (by omega) h2) hnz
  exact ⟨rfl, rfl, rfl, hstep2.1, hstep2.2.1, hstep2.2.2⟩

/-- The concrete forward state for the C10 witness: the 3x3 matrix with rows
`(0,0,0)`, `(0,1,0)`, `(0,2,0)` (flat cells 4 and 7 nonzero), flag down,
multiplier 1. -/
def c10St : FwdSt :=
  { A := fun k => if k = 4 then 1 else if k = 7 then 2 else 0,
    flag := 0, mult := 1, prod := 1, log := [] }

/-- Witness for C10 at the concrete state: a zero pivot with an all-zero
column at diagonal 0, then at diagonal 1 (whose pivot is the nonzero 1) the
swap with row 3 happens: the multiplier ends at `-1` and the `[SWP]` line for
rows 3 and 2 is in the log. -/
theorem pending_swap_flag_carries_over_witness :
    (fwdStep 3 3 0 c10St).flag = 1
    ∧ (fwdStep 3 3 1 (fwdStep 3 3 0 c10St)).mult = 1 * (-1)
    ∧ LogEntry.swp 3 2 ∈ (fwdStep 3 3 1 (fwdStep 3 3 0 c10St)).log := by
  have h := pending_swap_flag_carries_over 3 3 0 2 c10St
    (by with_unfolding_all rfl)
    (by
      intro row h1 h2
      interval_cases row
      · with_unfolding_all rfl
      · with_unfolding_all rfl)
    (by
      have hv : c10St.A ((0 + 1) * 3 + (0 + 1)) = 1 := by with_unfolding_all rfl
      rw [hv]
      norm_num)
    (by omega) (by omega)
    (by
      intro row h1 h2
      exact absurd h2 (by omega))
    (by
      have hv : c10St.A (2 * 3 + (0 + 1)) = 2 := by with_unfolding_all rfl
      rw [hv]
      norm_num)
  exact ⟨h.1, h.2.2.2.1, h.2.2.2.2.1⟩

/-! ## Sanity anchors: the example system from the source file

The commented-out `main` of row_reduction.c reduces the system
`2x + y - z = 8; -3x - y + 2z = -11; -2x + y + 2z = -3`, whose determinant is
`-1` and whose unique solution is `(2, 3, -1)`. The embedding reproduces
both on the nose. -/

/-- The 3x3 base matrix of the example system. -/
def exBase : Buf := fun k =>
  if k = 0 then 2 else if k = 1 then 1 else if k = 2 then -1 else
  if k = 3 then -3 else if k = 4 then -1 else if k = 5 then 2 else
  if k = 6 then -2 else if k = 7 then 1 else if k = 8 then 2 else 0

/-- The example augment column `(8, -11, -3)`. -/
def exAug : Buf :=
  fun k => if k = 0 then 8 else if k = 1 then -11 else if k = 2 then -3 else 0

/-- Metadata of the 3x3 base matrix. -/
def exMeta : MatrixMetadata :=
  { num_rows := 3, num_cols := 3, augmented_matrix_rank := 0, matrix_rank := 0,
    is_consistent := 0, matrix_determinant := 0 }

/-- Metadata of the 3x1 augment. -/
def exAugMeta : MatrixMetadata :=
  { num_rows := 3, num_cols := 1, augmented_matrix_rank := 0, matrix_rank := 0,
    is_consistent := 0, matrix_determinant := 0 }

example :
    (python_perform_gauss_jordan_reduction exBase exAug exMeta
      exAugMeta).meta.matrix_determinant = -1 := by
  with_unfolding_all rfl

example :
    (python_perform_gauss_jordan_reduction exBase exAug exMeta
      exAugMeta).meta.is_consistent = 1 := by
  with_unfolding_all rfl

example :
    (python_perform_gauss_jordan_reduction exBase exAug exMeta exAugMeta).reduced 3 = 2
    ∧ (python_perform_gauss_jordan_reduction exBase exAug exMeta exAugMeta).reduced 7 = 3
    ∧ (python_perform_gauss_jordan_reduction exBase exAug exMeta exAugMeta).reduced 11 = -1 := by
  exact ⟨by with_unfolding_all rfl, by with_unfolding_all rfl, by with_unfolding_all rfl⟩
